import Mathlib

/-!
Verification of the webrtc-direct module of the P2P_study repository
(src/src/modules/qrcode.test.js, inlined module "webrtc-direct"):
the negotiation codec (compressSignaling / decompressSignaling) and the
connection lifecycle controller (createDirectConnection).

The JavaScript source is shallowly embedded: JS strings become `List Char`,
JS numbers on the byte/port domain become `Nat` (with explicit `% 2^k`
where the source masks), thrown exceptions become `Except String`, and the
regular-expression extractions of the source are embedded as executable
scan functions with the same first-match semantics.
-/

set_option maxHeartbeats 1000000
set_option maxRecDepth 10000

namespace P2P

/-- JS strings are modelled as lists of characters. -/
abbrev LC := List Char

/-- Shorthand: the character list of a string literal. -/
def s2l (s : String) : LC := s.toList

/-- Left brace character, kept out of literals. -/
def lbrace : Char := Char.ofNat 123

/-- Right brace character, kept out of literals. -/
def rbrace : Char := Char.ofNat 125

/-- Decimal digit test, as in the regex class \d. -/
def isDig (c : Char) : Bool := 48 ≤ c.toNat && c.toNat ≤ 57

/-- Word-character test, as in the regex class \w. -/
def isWordChar (c : Char) : Bool :=
  isDig c || (65 ≤ c.toNat && c.toNat ≤ 90) || (97 ≤ c.toNat && c.toNat ≤ 122) || c = '_'

/-- Line terminators, the characters the regex dot does not match. -/
def isLineTerm (c : Char) : Bool :=
  c = '\n' || c = '\r' || c.toNat = 0x2028 || c.toNat = 0x2029

/-- Whitespace removed by the String.prototype.trim of the source
(the ASCII part plus the common Unicode space characters that can occur here). -/
def isJsWs (c : Char) : Bool :=
  c = ' ' || c = '\t' || c = '\n' || c = '\r' || c = '\x0b' || c = '\x0c' ||
  c.toNat = 0xa0 || c.toNat = 0xfeff || c.toNat = 0x2028 || c.toNat = 0x2029

/-- ASCII whitespace, the set removed by the forgiving-base64 decode of atob. -/
def isAsciiWs (c : Char) : Bool :=
  c = '\t' || c = '\n' || c = '\x0c' || c = '\r' || c = ' '

/-- JS String.prototype.trim. -/
def jsTrim (s : LC) : LC :=
  ((s.dropWhile isJsWs).reverse.dropWhile isJsWs).reverse

/-- The character of a decimal digit value. -/
def digitChar (d : Nat) : Char := Char.ofNat (48 + d)

/-- Digit-peeling loop of natToStr, fuel-driven so that the kernel can
evaluate it (the fuel n + 1 always suffices since n / 10 < n). -/
def natToStrAux : Nat → Nat → LC
  | 0, _ => []
  | fuel + 1, n =>
    if n < 10 then [digitChar n]
    else natToStrAux fuel (n / 10) ++ [digitChar (n % 10)]

/-- Canonical decimal rendering of a natural number, as JS String(n). -/
def natToStr (n : Nat) : LC := natToStrAux (n + 1) n

/-- Numeric value of a digit string, as JS Number on an all-digit string. -/
def digitsToNat (s : LC) : Nat :=
  s.foldl (fun acc c => acc * 10 + (c.toNat - 48)) 0

/-- JS String.prototype.split on a single-character separator. -/
def jsSplit (sep : Char) : LC → List LC
  | [] => [[]]
  | c :: rest =>
    if c = sep then [] :: jsSplit sep rest
    else
      match jsSplit sep rest with
      | h :: t => (c :: h) :: t
      | [] => [[c]]

/-- Join a list of strings with a separator, as Array.prototype.join. -/
def joinSep (sep : LC) : List LC → LC
  | [] => []
  | [x] => x
  | x :: xs => x ++ sep ++ joinSep sep xs

/-- The base64 alphabet used by btoa and atob. -/
def b64Alphabet : LC :=
  s2l "ABCDEFGHIJKLMNOPQRSTUVWXYZabcdefghijklmnopqrstuvwxyz0123456789+/"

/-- Character of a 6-bit value in the base64 alphabet. -/
def b64Char (n : Nat) : Char := b64Alphabet.getD n 'A'

/-- 6-bit value of a base64 character, none when outside the alphabet. -/
def b64Val (c : Char) : Option Nat := b64Alphabet.findIdx? (· == c)

/-- Core base64 encoding of a byte sequence, with padding, three bytes at a
time exactly as btoa emits them. -/
def btoaCore : List Nat → LC
  | [] => []
  | [a] => [b64Char (a / 4), b64Char (a % 4 * 16), '=', '=']
  | [a, b] => [b64Char (a / 4), b64Char (a % 4 * 16 + b / 16), b64Char (b % 16 * 4), '=']
  | a :: b :: c :: rest =>
    b64Char (a / 4) :: b64Char (a % 4 * 16 + b / 16) ::
    b64Char (b % 16 * 4 + c / 64) :: b64Char (c % 64) :: btoaCore rest

/-- JS btoa: the argument is a string whose char codes must all be below 256
(otherwise an InvalidCharacterError is thrown); the result is its base64
encoding. Bytes are passed directly, identifying a JS binary string with
its list of char codes. -/
def jsBtoa (bs : List Nat) : Except String LC :=
  if bs.all (· < 256) then .ok (btoaCore bs) else .error "InvalidCharacterError"

/-- Strip one or two trailing padding characters, step 2 of forgiving-base64. -/
def stripPad (s : LC) : LC :=
  match s.reverse with
  | '=' :: '=' :: r => r.reverse
  | '=' :: r => r.reverse
  | _ => s

/-- Core base64 decoding of a sequence of 6-bit values, four at a time,
discarding leftover bits as forgiving-base64 does. -/
def atobCore : List Nat → List Nat
  | [] => []
  | [_] => []
  | [a, b] => [a * 4 + b / 16]
  | [a, b, c] => [a * 4 + b / 16, b % 16 * 16 + c / 4]
  | a :: b :: c :: d :: rest =>
    (a * 4 + b / 16) :: (b % 16 * 16 + c / 4) :: (c % 4 * 64 + d) :: atobCore rest

/-- JS atob, the WHATWG forgiving-base64 decode: remove ASCII whitespace,
strip padding when the length is a multiple of four, reject a remainder of
one, reject characters outside the alphabet, then decode. The result is the
list of char codes of the returned binary string. -/
def jsAtob (s : LC) : Except String (List Nat) :=
  let t := s.filter (fun c => !isAsciiWs c)
  let t := if t.length % 4 = 0 then stripPad t else t
  if t.length % 4 = 1 then .error "InvalidCharacterError"
  else
    match t.mapM b64Val with
    | some vals => .ok (atobCore vals)
    | none => .error "InvalidCharacterError"

/-- JSON values, as produced by JSON.parse: strings, numbers (kept as their
source notation), booleans, null, arrays and objects (members in order,
duplicates possible). -/
inductive JVal where
  | jstr (s : LC)
  | jnum (raw : LC)
  | jbool (b : Bool)
  | jnull
  | jarr (elems : List JVal)
  | jobj (members : List (LC × JVal))

/-- Lowercase hexadecimal digit character. -/
def hexDigitLC (d : Nat) : Char :=
  if d < 10 then Char.ofNat (48 + d) else Char.ofNat (87 + d)

/-- JSON.stringify escaping of one string character. -/
def escChar (c : Char) : LC :=
  if c = '"' then ['\\', '"']
  else if c = '\\' then ['\\', '\\']
  else if c = '\x08' then ['\\', 'b']
  else if c = '\t' then ['\\', 't']
  else if c = '\n' then ['\\', 'n']
  else if c = '\x0c' then ['\\', 'f']
  else if c = '\r' then ['\\', 'r']
  else if c.toNat < 32 then ['\\', 'u', '0', '0', hexDigitLC (c.toNat / 16), hexDigitLC (c.toNat % 16)]
  else [c]

/-- JSON.stringify of a string, quotes included. -/
def printString (s : LC) : LC := '"' :: s.flatMap escChar ++ ['"']

mutual

/-- JSON.stringify of a value. -/
def printJson : JVal → LC
  | .jstr s => printString s
  | .jnum raw => raw
  | .jbool true => s2l "true"
  | .jbool false => s2l "false"
  | .jnull => s2l "null"
  | .jarr xs => '[' :: printElems xs ++ [']']
  | .jobj kvs => lbrace :: printMembers kvs ++ [rbrace]

/-- JSON.stringify of the comma-separated items of an array. -/
def printElems : List JVal → LC
  | [] => []
  | [x] => printJson x
  | x :: xs => printJson x ++ ',' :: printElems xs

/-- JSON.stringify of the comma-separated members of an object. -/
def printMembers : List (LC × JVal) → LC
  | [] => []
  | [(k, v)] => printString k ++ ':' :: printJson v
  | (k, v) :: kvs => printString k ++ ':' :: printJson v ++ ',' :: printMembers kvs

end

/-- JSON whitespace skipped between tokens. -/
def skipWs (s : LC) : LC :=
  s.dropWhile (fun c => c = ' ' || c = '\t' || c = '\n' || c = '\r')

/-- Value of a hexadecimal digit character, either case. -/
def hexVal (c : Char) : Option Nat :=
  if 48 ≤ c.toNat && c.toNat ≤ 57 then some (c.toNat - 48)
  else if 65 ≤ c.toNat && c.toNat ≤ 70 then some (c.toNat - 55)
  else if 97 ≤ c.toNat && c.toNat ≤ 102 then some (c.toNat - 87)
  else none

/-- Value of four hexadecimal digits. -/
def hex4 (a b c d : Char) : Option Nat := do
  let va ← hexVal a
  let vb ← hexVal b
  let vc ← hexVal c
  let vd ← hexVal d
  pure (va * 4096 + vb * 256 + vc * 16 + vd)

/-- Prefix a character onto a string-parse result. -/
def consRes (c : Char) (r : Option (LC × LC)) : Option (LC × LC) :=
  r.map (fun p => (c :: p.1, p.2))

/-- Fuel-indexed JSON string-body parser, positioned after the opening
quote; the fuel is decremented per escape or character, so the input length
plus one always suffices. Escapes follow JSON.parse; a surrogate pair in
\u escapes yields the combined character, while a lone surrogate is
rejected (a List Char model cannot carry lone UTF-16 surrogates, a corner
JSON.parse accepts). -/
def parseStringBodyF : Nat → LC → Option (LC × LC)
  | 0, _ => none
  | f + 1, s =>
    match s with
    | [] => none
    | c :: r =>
      if c = '"' then some ([], r)
      else if c = '\\' then
        match r with
        | '"' :: r2 => consRes '"' (parseStringBodyF f r2)
        | '\\' :: r2 => consRes '\\' (parseStringBodyF f r2)
        | '/' :: r2 => consRes '/' (parseStringBodyF f r2)
        | 'b' :: r2 => consRes '\x08' (parseStringBodyF f r2)
        | 'f' :: r2 => consRes '\x0c' (parseStringBodyF f r2)
        | 'n' :: r2 => consRes '\n' (parseStringBodyF f r2)
        | 'r' :: r2 => consRes '\r' (parseStringBodyF f r2)
        | 't' :: r2 => consRes '\t' (parseStringBodyF f r2)
        | 'u' :: a :: b :: cc :: d :: r2 =>
          match hex4 a b cc d with
          | none => none
          | some code =>
            if code < 0xd800 || 0xe000 ≤ code then
              consRes (Char.ofNat code) (parseStringBodyF f r2)
            else if code ≤ 0xdbff then
              match r2 with
              | '\\' :: 'u' :: e :: f2 :: g :: h :: r3 =>
                match hex4 e f2 g h with
                | some code2 =>
                  if 0xdc00 ≤ code2 && code2 ≤ 0xdfff then
                    consRes (Char.ofNat (0x10000 + (code - 0xd800) * 1024 + (code2 - 0xdc00)))
                      (parseStringBodyF f r3)
                  else none
                | none => none
              | _ => none
            else none
        | _ => none
      else if c.toNat < 32 then none
      else consRes c (parseStringBodyF f r)

/-- JSON string-body parser entry point. -/
def parseStringBody (s : LC) : Option (LC × LC) := parseStringBodyF (s.length + 1) s

/-- Integer part of a JSON number: 0, or a nonzero digit followed by digits. -/
def parseNumInt : LC → Option (LC × LC)
  | [] => none
  | c :: r =>
    if c = '0' then some (['0'], r)
    else if isDig c then some (c :: r.takeWhile isDig, r.dropWhile isDig)
    else none

/-- Optional fraction part of a JSON number. -/
def parseFracPart (s : LC) : Option (LC × LC) :=
  match s with
  | '.' :: r =>
    let ds := r.takeWhile isDig
    if ds.isEmpty then none else some ('.' :: ds, r.dropWhile isDig)
  | _ => some ([], s)

/-- Optional exponent part of a JSON number. -/
def parseExpPart (s : LC) : Option (LC × LC) :=
  match s with
  | c :: r =>
    if c = 'e' || c = 'E' then
      let sr : LC × LC :=
        match r with
        | '+' :: rr => (['+'], rr)
        | '-' :: rr => (['-'], rr)
        | _ => ([], r)
      let ds := sr.2.takeWhile isDig
      if ds.isEmpty then none else some (c :: (sr.1 ++ ds), sr.2.dropWhile isDig)
    else some ([], s)
  | [] => some ([], s)

/-- JSON number parser; returns the consumed notation. -/
def parseNum (s : LC) : Option (LC × LC) := do
  let ns : LC × LC :=
    match s with
    | '-' :: r => (['-'], r)
    | _ => ([], s)
  let (ip, s2) ← parseNumInt ns.2
  let (fp, s3) ← parseFracPart s2
  let (ep, s4) ← parseExpPart s3
  pure (ns.1 ++ ip ++ fp ++ ep, s4)

/-- Parser mode: a value, the items of an array, or the members of an
object (the three productions are folded into one fuel-indexed function so
that the recursion is structural and the kernel can evaluate it). -/
inductive PMode where
  | pval
  | pelems
  | pmembers

/-- Parser output for the three modes. -/
inductive POut where
  | oval (v : JVal)
  | oelems (vs : List JVal)
  | omembers (kvs : List (LC × JVal))

/-- Fuel-indexed JSON parser covering the grammar of JSON.parse. -/
def parseF : Nat → PMode → LC → Option (POut × LC)
  | 0, _, _ => none
  | f + 1, .pval, s =>
    match skipWs s with
    | [] => none
    | c :: r =>
      if c = lbrace then
        match skipWs r with
        | [] => none
        | c2 :: r2 =>
          if c2 = rbrace then some (.oval (.jobj []), r2)
          else
            match parseF f .pmembers (c2 :: r2) with
            | some (.omembers kvs, r3) => some (.oval (.jobj kvs), r3)
            | _ => none
      else if c = '[' then
        match skipWs r with
        | [] => none
        | c2 :: r2 =>
          if c2 = ']' then some (.oval (.jarr []), r2)
          else
            match parseF f .pelems (c2 :: r2) with
            | some (.oelems vs, r3) => some (.oval (.jarr vs), r3)
            | _ => none
      else if c = '"' then
        match parseStringBody r with
        | some (str, r2) => some (.oval (.jstr str), r2)
        | none => none
      else if c = 't' then
        match r with
        | 'r' :: 'u' :: 'e' :: r2 => some (.oval (.jbool true), r2)
        | _ => none
      else if c = 'f' then
        match r with
        | 'a' :: 'l' :: 's' :: 'e' :: r2 => some (.oval (.jbool false), r2)
        | _ => none
      else if c = 'n' then
        match r with
        | 'u' :: 'l' :: 'l' :: r2 => some (.oval .jnull, r2)
        | _ => none
      else
        match parseNum (c :: r) with
        | some (raw, r2) => some (.oval (.jnum raw), r2)
        | none => none
  | f + 1, .pelems, s =>
    match parseF f .pval s with
    | some (.oval v, r) =>
      match skipWs r with
      | ',' :: r2 =>
        match parseF f .pelems r2 with
        | some (.oelems vs, r3) => some (.oelems (v :: vs), r3)
        | _ => none
      | ']' :: r2 => some (.oelems [v], r2)
      | _ => none
    | _ => none
  | f + 1, .pmembers, s =>
    match skipWs s with
    | [] => none
    | c :: r =>
      if c = '"' then
        match parseStringBody r with
        | some (k, r2) =>
          match skipWs r2 with
          | ':' :: r3 =>
            match parseF f .pval r3 with
            | some (.oval v, r4) =>
              match skipWs r4 with
              | [] => none
              | c5 :: r5 =>
                if c5 = ',' then
                  match parseF f .pmembers r5 with
                  | some (.omembers kvs, r6) => some (.omembers ((k, v) :: kvs), r6)
                  | _ => none
                else if c5 = rbrace then some (.omembers [(k, v)], r5)
                else none
            | _ => none
          | _ => none
        | none => none
      else none

/-- JSON.parse: parse one value and require only whitespace after it. The
fuel 2|s|+2 is enough for any input since every two fuel steps consume at
least one character. -/
def jsonParse (s : LC) : Option JVal :=
  match parseF (2 * s.length + 2) .pval s with
  | some (.oval v, rest) => if (skipWs rest).isEmpty then some v else none
  | _ => none

/-- Object member lookup, as reading a property of the object JSON.parse
builds: the last duplicate wins; a non-object has no members. -/
def jlookup (v : JVal) (key : LC) : Option JVal :=
  match v with
  | .jobj kvs => (kvs.reverse.find? (fun kv => kv.1 == key)).map (·.2)
  | _ => none

/-- JS strict equality of a possibly-absent value with a string literal. -/
def jsStrictEqStr (v : Option JVal) (s : LC) : Bool :=
  match v with
  | some (.jstr x) => x == s
  | _ => false

/-- Whether the mantissa of a number notation is zero. -/
def numStrIsZero (raw : LC) : Bool :=
  (raw.takeWhile (fun c => c ≠ 'e' && c ≠ 'E')).all (fun c => !isDig c || c = '0')

/-- JS falsiness of a possibly-absent value. -/
def jsFalsy : Option JVal → Bool
  | none => true
  | some .jnull => true
  | some (.jbool b) => !b
  | some (.jstr s) => s.isEmpty
  | some (.jnum raw) => numStrIsZero raw
  | some (.jarr _) => false
  | some (.jobj _) => false

mutual

/-- JS String coercion of a value (arrays join their coerced elements with
commas, null elements joining as empty; objects give the Object default). -/
def jsToStrV : JVal → LC
  | .jstr s => s
  | .jnum raw => raw
  | .jbool true => s2l "true"
  | .jbool false => s2l "false"
  | .jnull => s2l "null"
  | .jarr xs => jsArrJoin xs
  | .jobj _ => s2l "[object Object]"

/-- Array.prototype.join with the comma separator under String coercion. -/
def jsArrJoin : List JVal → LC
  | [] => []
  | [.jnull] => []
  | [x] => jsToStrV x
  | .jnull :: xs => ',' :: jsArrJoin xs
  | x :: xs => jsToStrV x ++ ',' :: jsArrJoin xs

end

/-- JS String coercion of a possibly-absent (undefined) value. -/
def jsToStr : Option JVal → LC
  | none => s2l "undefined"
  | some v => jsToStrV v

/-- Attempt of the regex literal-then-capture pattern at the start of s:
the literal must be a prefix and the dot-plus capture takes the longest
nonempty run of non-line-terminator characters after it (the greedy
semantics of /lit(.+)/ anchored at one position). -/
def tryCapture (pat s : LC) : Option LC :=
  if pat.isPrefixOf s then
    let cap := (s.drop pat.length).takeWhile (fun c => !isLineTerm c)
    if cap.isEmpty then none else some cap
  else none

/-- First match of /lit(.+)/ over a string: scan every start position left
to right, as String.prototype.match does, and return the first capture. -/
def firstLineCapture (pat : LC) : LC → Option LC
  | [] => none
  | c :: s =>
    match tryCapture pat (c :: s) with
    | some cap => some cap
    | none => firstLineCapture pat s

/-- Attempt of the candidate regex (\d+\.\d+\.\d+\.\d+) (\d+) typ (\w+) at
the start of s. Each \d+ is followed by a character that is not a digit, so
greedy matching with backtracking is equivalent to maximal munch, and the
final \w+ is plain maximal munch; the captures are the full dotted address,
the port digits, and the kind word. -/
def candAt (s : LC) : Option (LC × LC × LC) :=
  let d1 := s.takeWhile isDig
  if d1.isEmpty then none else
  match s.dropWhile isDig with
  | '.' :: t1 =>
    let d2 := t1.takeWhile isDig
    if d2.isEmpty then none else
    match t1.dropWhile isDig with
    | '.' :: t2 =>
      let d3 := t2.takeWhile isDig
      if d3.isEmpty then none else
      match t2.dropWhile isDig with
      | '.' :: t3 =>
        let d4 := t3.takeWhile isDig
        if d4.isEmpty then none else
        match t3.dropWhile isDig with
        | ' ' :: t4 =>
          let d5 := t4.takeWhile isDig
          if d5.isEmpty then none else
          match t4.dropWhile isDig with
          | ' ' :: 't' :: 'y' :: 'p' :: ' ' :: t5 =>
            let w := t5.takeWhile isWordChar
            if w.isEmpty then none
            else some (d1 ++ '.' :: d2 ++ '.' :: d3 ++ '.' :: d4, d5, w)
          | _ => none
        | _ => none
      | _ => none
    | _ => none
  | _ => none

/-- First match of the candidate regex over a string, scanning start
positions left to right. -/
def firstCand : LC → Option (LC × LC × LC)
  | [] => none
  | c :: s =>
    match candAt (c :: s) with
    | some t => some t
    | none => firstCand s

/-- JS parseInt with radix 16 on the inputs arising here: skip leading
whitespace, allow an 0x or 0X prefix, take the maximal run of hex digits;
none models NaN (no digits). The sign prefix of parseInt is not modelled;
fingerprint fields are unsigned hex pairs. -/
def jsParseIntHex (s : LC) : Option Nat :=
  let t := s.dropWhile isJsWs
  let t :=
    match t with
    | '0' :: 'x' :: r => r
    | '0' :: 'X' :: r => r
    | _ => t
  let ds := t.takeWhile (fun c => (hexVal c).isSome)
  if ds.isEmpty then none
  else some (ds.foldl (fun acc c => acc * 16 + ((hexVal c).getD 0)) 0)

/-- Hex-digit loop of natToHex, fuel-driven. -/
def natToHexAux : Nat → Nat → LC
  | 0, _ => []
  | fuel + 1, n =>
    if n < 16 then [hexDigitLC n]
    else natToHexAux fuel (n / 16) ++ [hexDigitLC (n % 16)]

/-- Lowercase hexadecimal rendering, as JS Number.prototype.toString(16). -/
def natToHex (n : Nat) : LC := natToHexAux (n + 1) n

/-- JS String.prototype.padStart(2, c). -/
def padStart2 (c : Char) (s : LC) : LC :=
  if s.length < 2 then List.replicate (2 - s.length) c ++ s else s

/-- One fingerprint byte as the decompressor renders it:
b.toString(16).padStart(2, 0).toUpperCase(). -/
def jsHexByte (b : Nat) : LC := (padStart2 '0' (natToHex b)).map Char.toUpper

/-- An RTCSessionDescription: a type tag (offer or answer) and the SDP text. -/
structure RTCSessionDescription where
  type : LC
  sdp : LC
deriving DecidableEq

/-- An RTCIceCandidateInit as the decompressor builds it. -/
structure RTCIceCandidateInit where
  candidate : LC
  sdpMid : LC
  sdpMLineIndex : Nat
deriving DecidableEq

/-- Result of decompressSignaling. -/
structure DecompressedSignaling where
  description : RTCSessionDescription
  candidates : List RTCIceCandidateInit
deriving DecidableEq

/-- The literal of the regex /a=ice-ufrag:(.+)/. -/
def iceUfragPat : LC := s2l "a=ice-ufrag:"

/-- The literal of the regex /a=ice-pwd:(.+)/. -/
def icePwdPat : LC := s2l "a=ice-pwd:"

/-- The literal of the regex /a=fingerprint:sha-256 (.+)/. -/
def fingerprintPat : LC := s2l "a=fingerprint:sha-256 "

/-- The per-candidate encoding step of the compressor: match the candidate
regex, split the dotted address into numeric octets, pack them with the two
port bytes and base64 them, and append the colon and the first character of
the kind; an unmatched candidate yields null. -/
def encodeEntry (s : LC) : Except String (Option LC) :=
  match firstCand s with
  | some (ip, port, typ) =>
    let ipParts := (jsSplit '.' ip).map digitsToNat
    let portNum := digitsToNat port
    let bytes := ipParts ++ [portNum / 256 % 256, portNum % 256]
    (jsBtoa bytes).map (fun enc => some (enc ++ ':' :: [typ.headD ' ']))
  | none => pure none

/-- compressSignaling of the source: extract ice-ufrag, ice-pwd and
fingerprint from the SDP (throwing when any is missing), pack the
fingerprint hex into bytes and base64 it, encode each parseable candidate
as base64 of 4 address bytes and 2 port bytes plus a kind suffix, keep the
first five, and base64 the compact JSON record. Candidate list entries are
Option LC: none is a null entry, some s an entry whose candidate string
is s. -/
def compressSignaling (description : RTCSessionDescription) (candidates : List (Option LC)) :
    Except String LC :=
  let sdp := description.sdp
  match firstLineCapture iceUfragPat sdp, firstLineCapture icePwdPat sdp,
      firstLineCapture fingerprintPat sdp with
  | some um, some pm, some fm => do
    let iceUfrag := jsTrim um
    let icePwd := jsTrim pm
    let fingerprint := jsTrim fm
    let fpBytes := (jsSplit ':' fingerprint).map (fun h => ((jsParseIntHex h).getD 0) % 65536)
    let fingerprintB64 ← jsBtoa fpBytes
    let pass := (candidates.filterMap id).filter (fun s => !s.isEmpty)
    let mapped ← pass.mapM encodeEntry
    let compressedCandidates := (mapped.filterMap id).take 5
    let tVal : LC := if description.type = s2l "offer" then s2l "o" else s2l "a"
    let data : JVal := .jobj
      [ (s2l "t", .jstr tVal)
      , (s2l "u", .jstr iceUfrag)
      , (s2l "p", .jstr icePwd)
      , (s2l "f", .jstr fingerprintB64)
      , (s2l "c", .jarr (compressedCandidates.map .jstr)) ]
    jsBtoa ((printJson data).map Char.toNat)
  | _, _, _ => .error "Could not extract required SDP fields"

/-- The minimal SDP the decompressor reconstructs, lines joined by CRLF
with a trailing CRLF; now stands for Date.now() in the origin line. -/
def minimalSdp (now : Nat) (iceUfrag icePwd fingerprint : LC) (typ : LC) : LC :=
  joinSep (s2l "\r\n")
    [ s2l "v=0"
    , s2l "o=- " ++ natToStr now ++ s2l " 2 IN IP4 127.0.0.1"
    , s2l "s=-"
    , s2l "t=0 0"
    , s2l "a=group:BUNDLE 0"
    , s2l "a=msid-semantic: WMS"
    , s2l "m=application 9 UDP/DTLS/SCTP webrtc-datachannel"
    , s2l "c=IN IP4 0.0.0.0"
    , s2l "a=ice-ufrag:" ++ iceUfrag
    , s2l "a=ice-pwd:" ++ icePwd
    , s2l "a=ice-options:trickle"
    , s2l "a=fingerprint:sha-256 " ++ fingerprint
    , s2l "a=setup:" ++ (if typ = s2l "offer" then s2l "actpass" else s2l "active")
    , s2l "a=mid:0"
    , s2l "a=sctp-port:5000"
    , s2l "a=max-message-size:262144" ] ++ s2l "\r\n"

/-- Kind-character decoding of the decompressor, defaulting to host. -/
def typName (tc : Option LC) : LC :=
  if tc = some (s2l "h") then s2l "host"
  else if tc = some (s2l "s") then s2l "srflx"
  else if tc = some (s2l "r") then s2l "relay"
  else s2l "host"

/-- Index-carrying monadic map for the candidate loop. -/
def mapIdxMAux (f : Nat → JVal → Except String RTCIceCandidateInit) :
    Nat → List JVal → Except String (List RTCIceCandidateInit)
  | _, [] => .ok []
  | i, x :: xs => do
    let y ← f i x
    let ys ← mapIdxMAux f (i + 1) xs
    pure (y :: ys)

/-- One candidate of the decompressor: split the entry on the colon,
base64-decode the first part, rebuild the dotted address from the first
four bytes and the port from bytes four and five (absent bytes contribute
zero, and the shift-or of the source is written with multiplication since
atob bytes are below 256), then format the candidate line. A non-string
entry throws, as calling split on it does. -/
def decompressCandidate (idx : Nat) (cv : JVal) : Except String RTCIceCandidateInit :=
  match cv with
  | .jstr s => do
    let parts := jsSplit ':' s
    let b64 := parts.headD []
    let typChar := parts.get? 1
    let bs ← jsAtob b64
    let ip := joinSep (s2l ".") ((bs.take 4).map natToStr)
    let port := (bs.getD 4 0) * 256 + bs.getD 5 0
    pure { candidate := s2l "candidate:" ++ natToStr idx ++ s2l " 1 udp " ++
             natToStr (2113937151 - idx * 100) ++ s2l " " ++ ip ++ s2l " " ++
             natToStr port ++ s2l " typ " ++ typName typChar
         , sdpMid := s2l "0", sdpMLineIndex := 0 }
  | _ => .error "TypeError: split is not a function"

/-- decompressSignaling of the source: base64-decode the token, JSON-parse
it, read the tag (anything but o means answer), coerce the credential
fields to strings (absent fields read as undefined), decode the
fingerprint (base64-decoding the coercion of an absent field throws),
rebuild the candidate list, and synthesize the minimal SDP. -/
def decompressSignaling (compressed : LC) (now : Nat) : Except String DecompressedSignaling := do
  let bytes ← jsAtob compressed
  let data ← match jsonParse (bytes.map Char.ofNat) with
    | some v => Except.ok v
    | none => Except.error "SyntaxError: JSON.parse"
  let typ : LC := if jsStrictEqStr (jlookup data (s2l "t")) (s2l "o")
    then s2l "offer" else s2l "answer"
  let iceUfrag := jsToStr (jlookup data (s2l "u"))
  let icePwd := jsToStr (jlookup data (s2l "p"))
  let fpBytes ← jsAtob (jsToStr (jlookup data (s2l "f")))
  let fingerprint := joinSep (s2l ":") (fpBytes.map jsHexByte)
  let cRaw := jlookup data (s2l "c")
  let cElems ← (if jsFalsy cRaw then Except.ok [] else
    match cRaw with
    | some (.jarr xs) => Except.ok xs
    | _ => Except.error "TypeError: map is not a function")
  let candidates ← mapIdxMAux decompressCandidate 0 cElems
  pure { description := { type := typ, sdp := minimalSdp now iceUfrag icePwd fingerprint typ }
       , candidates := candidates }

/-- The connection states of the source DirectConnectionState object. -/
inductive DirectConnectionState where
  | idle
  | offering
  | answering
  | connecting
  | connected
  | disconnected
  | failed
deriving DecidableEq

/-- Values of pc.iceConnectionState read by the source handlers. -/
inductive IceConnState where
  | fresh
  | checking
  | connected
  | completed
  | failed
  | disconnected
  | closed
deriving DecidableEq

/-- Values of pc.connectionState read by the source handlers (fresh models
the JS value new). -/
inductive PeerConnState where
  | fresh
  | connecting
  | connected
  | disconnected
  | failed
  | closed
deriving DecidableEq

/-- Data-channel readyState (opened models the JS value open). -/
inductive ChannelReadyState where
  | connecting
  | opened
  | closing
  | closed
deriving DecidableEq

/-- The mutable closure state of one createDirectConnection instance:
current state, whether the engine handle pc exists, the last reported ICE
connection state, the channel handle with its readyState, the accumulated
local candidates, and whether the gathering timeout is pending. -/
structure ConnSt where
  state : DirectConnectionState
  pc : Bool
  ice : IceConnState
  dataChannel : Option ChannelReadyState
  localCandidates : List LC
  timerActive : Bool
deriving DecidableEq

/-- The state of a freshly created connection manager. -/
def initConn : ConnSt :=
  { state := .idle, pc := false, ice := .fresh, dataChannel := none,
    localCandidates := [], timerActive := false }

/-- setState of the source (the onStateChange callback is an external
effect and carries no state). -/
def setConnState (ns : DirectConnectionState) (s : ConnSt) : ConnSt := { s with state := ns }

/-- Asynchronous events delivered to the handlers the source registers:
ICE connection state changes, peer connection state changes, channel open
and close, arrival of a remote data channel with its readyState, and ICE
candidate events (none is the end-of-gathering null candidate). -/
inductive CEvent where
  | iceStateChange (i : IceConnState)
  | connectionStateChange (p : PeerConnState)
  | channelOpen
  | channelClose
  | dataChannelArrived (r : ChannelReadyState)
  | iceCandidate (c : Option LC)

/-- One event delivered to the handlers of the source, updating the field
the event concerns and then running the registered handler body. -/
def stepEvent (s : ConnSt) : CEvent → ConnSt
  | .iceStateChange i =>
    let s := { s with ice := i }
    if i = .connected ∨ i = .completed then
      if s.dataChannel = some .opened then setConnState .connected s else s
    else if i = .failed then setConnState .failed s
    else if i = .disconnected then setConnState .disconnected s
    else s
  | .connectionStateChange p =>
    if p = .connected then
      if s.dataChannel = some .opened then setConnState .connected s else s
    else if p = .failed then setConnState .failed s
    else s
  | .channelOpen =>
    match s.dataChannel with
    | some _ => setConnState .connected { s with dataChannel := some .opened }
    | none => s
  | .channelClose =>
    match s.dataChannel with
    | some _ => setConnState .disconnected { s with dataChannel := some .closed }
    | none => s
  | .dataChannelArrived r =>
    let s := { s with dataChannel := some r }
    if r = .opened then setConnState .connected s else s
  | .iceCandidate c =>
    match c with
    | some cand => { s with localCandidates := s.localCandidates ++ [cand] }
    | none => s

/-- Deliver a sequence of events. -/
def runEvents (s : ConnSt) (evs : List CEvent) : ConnSt := evs.foldl stepEvent s

/-- The controller state right after the synchronous part of createOffer:
a fresh engine handle, an owned channel still connecting, state Offering,
and the gathering timeout armed. -/
def offerSetupState : ConnSt :=
  { state := .offering, pc := true, ice := .fresh, dataChannel := some .connecting,
    localCandidates := [], timerActive := true }

/-- acceptAnswer of the source: guarded by the existence of the engine
handle, it decompresses the token, feeds the engine (an external effect
whose per-candidate failures are swallowed), and sets Connecting. The
first component is the thrown error, if any; on a throw the closure state
is returned unchanged, since the source throws before any mutation. -/
def acceptAnswer (s : ConnSt) (tok : LC) (now : Nat) : Option String × ConnSt :=
  if !s.pc then (some "No peer connection - call createOffer first", s)
  else
    match decompressSignaling tok now with
    | .error e => (some e, s)
    | .ok _ => (none, setConnState .connecting s)

/-- close of the source: clear the pending timeout, close and drop the
channel, close and drop the engine handle, clear the accumulated
candidates, and set Disconnected. It never throws. -/
def close (s : ConnSt) : ConnSt :=
  { state := .disconnected, pc := false, ice := s.ice, dataChannel := none,
    localCandidates := [], timerActive := false }

/-- JS typeof v === Object, true for objects, arrays and null. -/
def isObjType : JVal → Bool
  | .jobj _ => true
  | .jarr _ => true
  | .jnull => true
  | _ => false

/-- send of the source: throws unless the channel exists and is open;
otherwise hands the message to the channel, JSON-stringified when typeof
gives object and verbatim otherwise. The result is the value handed to
channel.send. -/
def send (s : ConnSt) (message : JVal) : Except String JVal :=
  if s.dataChannel ≠ some .opened then .error "Data channel not open"
  else .ok (if isObjType message then .jstr (printJson message) else message)

/-- pc.iceGatheringState values. -/
inductive GatherState where
  | fresh
  | gathering
  | complete
deriving DecidableEq

/-- State of the gathering wait inside createOffer: the accumulated
candidate count, the gathering state, whether the promise has resolved,
and whether the 3000 ms timeout is still pending. -/
structure OfferWait where
  cands : Nat
  gather : GatherState
  resolved : Bool
  timer : Bool
deriving DecidableEq

/-- checkCandidates of the source: when gathering is complete or at least
three candidates have accumulated, clear the timeout and resolve. -/
def owCheck (s : OfferWait) : OfferWait :=
  if s.gather = .complete ∨ 3 ≤ s.cands then { s with timer := false, resolved := true } else s

/-- The wait right after the promise body runs: handler registered,
timeout armed, and one immediate checkCandidates call. -/
def owInit (c0 : Nat) (g0 : GatherState) : OfferWait :=
  owCheck { cands := c0, gather := g0, resolved := false, timer := true }

/-- Events the gathering wait can receive: an onicecandidate delivery, an
onicegatheringstatechange delivery, and the timeout firing. -/
inductive OWEvent where
  | cand
  | gatherChange (g : GatherState)
  | timeout

/-- One event of the gathering wait. A candidate only accumulates (the
source attaches checkCandidates to onicegatheringstatechange only); a
gathering state change runs checkCandidates; the timeout resolves if still
pending. -/
def owStep (s : OfferWait) : OWEvent → OfferWait
  | .cand => { s with cands := s.cands + 1 }
  | .gatherChange g => owCheck { s with gather := g }
  | .timeout => if s.timer then { s with timer := false, resolved := true } else s

/-- Deliver a sequence of gathering-wait events. -/
def owRun (s : OfferWait) (evs : List OWEvent) : OfferWait := evs.foldl owStep s

/-- Ice characters: the alphabet of ice-ufrag and ice-pwd values
(letters, digits, plus, slash). -/
def isIceChar (c : Char) : Bool :=
  isDig c || (65 ≤ c.toNat && c.toNat ≤ 90) || (97 ≤ c.toNat && c.toNat ≤ 122) ||
  c = '+' || c = '/'

/-- A negotiation document, structured: role tag, credential username
(ice-ufrag), credential secret (ice-pwd), and the security fingerprint as
its digest bytes. -/
structure NDoc where
  role : LC
  ufrag : LC
  pwd : LC
  fpBytes : List Nat

/-- The colon-joined uppercase hex rendering of fingerprint bytes, the
textual form carried in SDP (the same formatting the decompressor uses). -/
def fpHexStr (bs : List Nat) : LC := joinSep (s2l ":") (bs.map jsHexByte)

/-- One optional SDP attribute line: a present payload contributes its
line, a missing one contributes nothing. -/
def optLine (lit : LC) : Option LC → LC
  | some v => lit ++ v ++ s2l "\r\n"
  | none => []

/-- A document with optional scalar fields rendered to SDP: each present
field contributes its line, a missing field contributes nothing. -/
def minimalSdpOpt (ts : Nat) (ufragOpt pwdOpt fpOpt : Option LC) (typ : LC) : LC :=
  s2l "v=0\r\no=- " ++ (natToStr ts ++ (s2l " 2 IN IP4 127.0.0.1\r\ns=-\r\nt=0 0\r\na=group:BUNDLE 0\r\na=msid-semantic: WMS\r\nm=application 9 UDP/DTLS/SCTP webrtc-datachannel\r\nc=IN IP4 0.0.0.0\r\n" ++
  (optLine (s2l "a=ice-ufrag:") ufragOpt ++
  (optLine (s2l "a=ice-pwd:") pwdOpt ++
  (s2l "a=ice-options:trickle\r\n" ++
  (optLine (s2l "a=fingerprint:sha-256 ") fpOpt ++
  (s2l "a=setup:" ++ ((if typ = s2l "offer" then s2l "actpass" else s2l "active") ++
  (s2l "\r\n" ++ s2l "a=mid:0\r\na=sctp-port:5000\r\na=max-message-size:262144\r\n")))))))))

/-- The SDP of a structured document, in the canonical minimal shape. -/
def docSdp (ts : Nat) (d : NDoc) : LC :=
  minimalSdpOpt ts (some d.ufrag) (some d.pwd) (some (fpHexStr d.fpBytes)) d.role

/-- Well-formedness of a document: a valid role tag, nonempty credentials
over the ice alphabet, and a nonempty fingerprint of bytes. -/
def wfDoc (d : NDoc) : Prop :=
  (d.role = s2l "offer" ∨ d.role = s2l "answer") ∧
  d.ufrag ≠ [] ∧ (∀ c ∈ d.ufrag, isIceChar c) ∧
  d.pwd ≠ [] ∧ (∀ c ∈ d.pwd, isIceChar c) ∧
  d.fpBytes ≠ [] ∧ (∀ b ∈ d.fpBytes, b < 256)

/-- Network path kinds surviving compression. -/
inductive PathKind where
  | host
  | srflx
  | relay
deriving DecidableEq

/-- The SDP word of a path kind. -/
def kindWord : PathKind → LC
  | .host => s2l "host"
  | .srflx => s2l "srflx"
  | .relay => s2l "relay"

/-- A network path: four address octets, a port, and a kind. -/
structure NPath where
  o1 : Nat
  o2 : Nat
  o3 : Nat
  o4 : Nat
  port : Nat
  kind : PathKind

/-- Well-formed path: octets below 256 and a 16-bit port. -/
def wfPath (p : NPath) : Prop :=
  p.o1 < 256 ∧ p.o2 < 256 ∧ p.o3 < 256 ∧ p.o4 < 256 ∧ p.port < 65536

/-- The dotted address text of a path. -/
def ipDotted (p : NPath) : LC :=
  natToStr p.o1 ++ '.' :: natToStr p.o2 ++ '.' :: natToStr p.o3 ++ '.' :: natToStr p.o4

/-- A well-formed candidate line for a path, as the engine reports it. -/
def renderPathCand (p : NPath) : LC :=
  s2l "candidate:0 1 udp 2122260223 " ++ ipDotted p ++ ' ' :: natToStr p.port ++
  s2l " typ " ++ kindWord p.kind

/-- The regex captures a well-formed path yields. -/
def pathTriple (p : NPath) : LC × LC × LC := (ipDotted p, natToStr p.port, kindWord p.kind)

/-- The per-entry filtering the compressor applies before the cap: null
entries, empty candidate strings, and strings the candidate regex does not
match are dropped; the rest yield their captures. -/
def parsedTriples (entries : List (Option LC)) : List (LC × LC × LC) :=
  entries.filterMap (fun e =>
    match e with
    | none => none
    | some s => if s.isEmpty then none else firstCand s)

/-- The octet values a captured triple denotes. -/
def tripleOcts (t : LC × LC × LC) : List Nat := (jsSplit '.' t.1).map digitsToNat

/-- The port value a captured triple denotes. -/
def triplePort (t : LC × LC × LC) : Nat := digitsToNat t.2.1

/-- The kind suffix character the compressor keeps for a captured triple. -/
def tripleKindChar (t : LC × LC × LC) : Char := t.2.2.headD ' '

/-- Numeric well-formedness of a captured triple: octets below 256 and a
16-bit port (otherwise the compressor either throws or wraps). -/
def wfTriple (t : LC × LC × LC) : Prop :=
  (∀ o ∈ tripleOcts t, o < 256) ∧ triplePort t < 65536

/-- The structural shape every triple the candidate regex captures has:
four nonempty digit runs joined by dots, a digit port, a nonempty word
kind. -/
def tripleShaped (t : LC × LC × LC) : Prop :=
  ∃ d1 d2 d3 d4 : LC, t.1 = d1 ++ '.' :: d2 ++ '.' :: d3 ++ '.' :: d4 ∧
    d1 ≠ [] ∧ d2 ≠ [] ∧ d3 ≠ [] ∧ d4 ≠ [] ∧
    (∀ c ∈ d1, isDig c) ∧ (∀ c ∈ d2, isDig c) ∧ (∀ c ∈ d3, isDig c) ∧
    (∀ c ∈ d4, isDig c) ∧
    (∀ c ∈ t.2.1, isDig c) ∧ t.2.2 ≠ [] ∧ ∀ c ∈ t.2.2, isWordChar c

/-- Map with the running index, as the candidate loop of the decompressor. -/
def mapWithIdx (f : Nat → α → β) : Nat → List α → List β
  | _, [] => []
  | i, x :: xs => f i x :: mapWithIdx f (i + 1) xs

/-- The candidate record the decompressor rebuilds from a captured triple
at a given index: canonical decimal octets and port, and the kind word the
kept suffix character denotes. -/
def expectedCandOfTriple (idx : Nat) (t : LC × LC × LC) : RTCIceCandidateInit :=
  { candidate := s2l "candidate:" ++ natToStr idx ++ s2l " 1 udp " ++
      natToStr (2113937151 - idx * 100) ++ s2l " " ++
      joinSep (s2l ".") ((tripleOcts t).map natToStr) ++ s2l " " ++
      natToStr (triplePort t) ++ s2l " typ " ++ typName (some [tripleKindChar t])
  , sdpMid := s2l "0", sdpMLineIndex := 0 }

/-- The compact encoding the compressor produces for a captured triple:
base64 of the four octets and two port bytes, a colon, and the first
character of the kind word. -/
def encTriple (t : LC × LC × LC) : LC :=
  btoaCore (tripleOcts t ++ [triplePort t / 256 % 256, triplePort t % 256]) ++
  ':' :: [tripleKindChar t]

/-- The JSON record the compressor builds for a well-formed document and a
candidate list. -/
def compressedRecord (d : NDoc) (entries : List (Option LC)) : JVal :=
  .jobj
    [ (s2l "t", .jstr (if d.role = s2l "offer" then s2l "o" else s2l "a"))
    , (s2l "u", .jstr d.ufrag)
    , (s2l "p", .jstr d.pwd)
    , (s2l "f", .jstr (btoaCore d.fpBytes))
    , (s2l "c", .jarr ((((parsedTriples entries).take 5).map encTriple).map JVal.jstr)) ]

/-- The token the compressor emits for a well-formed document and a
candidate list. -/
def tokenOf (d : NDoc) (entries : List (Option LC)) : LC :=
  btoaCore ((printJson (compressedRecord d entries)).map Char.toNat)

/-- Positionwise mismatch detector: true when the pattern disagrees with
the text at some index inside both, so the pattern cannot be a prefix of
the text however the text continues. -/
def mismWithin : LC → LC → Bool
  | _, [] => false
  | [], _ => false
  | p :: ps, c :: cs => p ≠ c || mismWithin ps cs

/-- True when no match of /pat(.+)/ can start at any position of pre,
whatever follows pre. -/
def noLineStartIn (pat : LC) : LC → Bool
  | [] => true
  | c :: rest => mismWithin pat (c :: rest) && noLineStartIn pat rest

/-- Conservative check that the candidate regex cannot match at the start
of s, whatever follows s: the position starts with a non-digit, or its
digit run ends inside s at a character other than a dot. -/
def candBlockedAt (s : LC) : Bool :=
  if s.isEmpty then false
  else if (s.takeWhile isDig).isEmpty then true
  else
    match s.dropWhile isDig with
    | [] => false
    | '.' :: _ => false
    | _ :: _ => true

/-- True when no match of the candidate regex can start at any position of
pre, whatever follows pre. -/
def candBlocked : LC → Bool
  | [] => true
  | c :: rest => candBlockedAt (c :: rest) && candBlocked rest

/-- Uppercase hex digit test (the characters jsHexByte emits). -/
def isHexUp (c : Char) : Bool := isDig c || (65 ≤ c.toNat && c.toNat ≤ 70)

/-- A plain JSON string payload: no quote, no backslash, no control
characters, so JSON.stringify emits it verbatim. -/
def plainStr (s : LC) : Prop := ∀ c ∈ s, c ≠ '"' ∧ c ≠ '\\' ∧ 32 ≤ c.toNat

/-- Values whose printed form this development reparses: plain strings,
booleans, null, and arrays of plain strings. -/
def isFlatVal : JVal → Prop
  | .jstr s => plainStr s
  | .jbool _ => True
  | .jnull => True
  | .jarr xs => ∀ v ∈ xs, ∃ s, v = JVal.jstr s ∧ plainStr s
  | _ => False

/-- Parser fuel needed for one flat value. -/
def fuelV : JVal → Nat
  | .jarr ss => ss.length + 2
  | _ => 1

/-- Parser fuel needed for a member list of flat values. -/
def fuelMs : List (LC × JVal) → Nat
  | [] => 1
  | (_, v) :: rest => fuelV v + fuelMs rest + 1

/-- The btoa encoding with its padding removed (what stripPad leaves). -/
def btoaUnpadded : List Nat → LC
  | [] => []
  | [a] => [b64Char (a / 4), b64Char (a % 4 * 16)]
  | [a, b] => [b64Char (a / 4), b64Char (a % 4 * 16 + b / 16), b64Char (b % 16 * 4)]
  | a :: b :: c :: rest =>
    b64Char (a / 4) :: b64Char (a % 4 * 16 + b / 16) ::
    b64Char (b % 16 * 4 + c / 64) :: b64Char (c % 64) :: btoaUnpadded rest

/-! ### Concrete evaluations checking the embedding -/

theorem eval_firstCand_hit :
    firstCand (s2l "candidate:0 1 udp 2113937151 192.168.1.100 54321 typ host") =
      some (s2l "192.168.1.100", s2l "54321", s2l "host") := rfl

theorem eval_firstCand_miss : firstCand (s2l "no address here") = none := rfl

theorem eval_flc_hit :
    firstLineCapture (s2l "a=ice-ufrag:") (s2l "v=0\r\na=ice-ufrag:abcd\r\na=ice-pwd:x\r\n") =
      some (s2l "abcd") := rfl

theorem eval_flc_miss :
    firstLineCapture (s2l "a=ice-ufrag:") (s2l "v=0\r\na=ice-pwd:x\r\n") = none := rfl

theorem eval_hex : jsParseIntHex (s2l "AB") = some 171 ∧ jsHexByte 7 = s2l "07" ∧
    jsHexByte 171 = s2l "AB" := ⟨rfl, rfl, rfl⟩

theorem eval_json_roundtrip :
    printJson (.jobj [(s2l "t", .jstr (s2l "o")), (s2l "c", .jarr [.jstr (s2l "A:h")])]) =
      s2l "\x7b\"t\":\"o\",\"c\":[\"A:h\"]\x7d" ∧
    jsonParse (s2l "\x7b\"t\":\"o\",\"c\":[\"A:h\"]\x7d") =
      some (.jobj [(s2l "t", .jstr (s2l "o")), (s2l "c", .jarr [.jstr (s2l "A:h")])]) ∧
    jsonParse (s2l "\x7b\"t\":\"o\"") = none := ⟨rfl, rfl, rfl⟩

theorem eval_base64 : jsBtoa [72, 105] = .ok (s2l "SGk=") ∧
    jsAtob (s2l "SGk=") = .ok [72, 105] ∧
    (jsAtob (s2l "undefined")).isOk = false := ⟨rfl, rfl, rfl⟩

theorem eval_codec_concrete :
    ((compressSignaling
        ⟨s2l "offer", minimalSdp 5 (s2l "abcd1234efgh5678") (s2l "ABCDefgh1234IJKL")
          (s2l "AA:BB:0F") (s2l "offer")⟩
        [none, some [], some (s2l "candidate:0 1 udp 2113937151 192.168.1.100 54321 typ host")]).bind
      (fun tok => decompressSignaling tok 7)).map
      (fun r => (r.description.type, r.candidates.map (fun c => c.candidate))) =
    .ok (s2l "offer",
      [s2l "candidate:0 1 udp 2113937151 192.168.1.100 54321 typ host"]) := rfl

/-! ### Generic list helpers -/

theorem takeWhile_append_all {p : Char → Bool} {l r : LC} (h : ∀ a ∈ l, p a) :
    (l ++ r).takeWhile p = l ++ r.takeWhile p := by
  induction l with
  | nil => rfl
  | cons a as ih =>
    have ha := h a (by simp)
    simp only [List.cons_append, List.takeWhile_cons, ha, ite_true]
    rw [ih (fun x hx => h x (by simp [hx]))]

theorem dropWhile_append_all {p : Char → Bool} {l r : LC} (h : ∀ a ∈ l, p a) :
    (l ++ r).dropWhile p = r.dropWhile p := by
  induction l with
  | nil => rfl
  | cons a as ih =>
    have ha := h a (by simp)
    simp only [List.cons_append, List.dropWhile_cons, ha, ite_true]
    exact ih (fun x hx => h x (by simp [hx]))

theorem takeWhile_all {p : Char → Bool} {l : LC} (h : ∀ a ∈ l, p a) :
    l.takeWhile p = l := by
  have := takeWhile_append_all (r := []) h
  simpa using this

theorem dropWhile_all {p : Char → Bool} {l : LC} (h : ∀ a ∈ l, p a) :
    l.dropWhile p = [] := by
  have := dropWhile_append_all (r := []) h
  simpa using this

theorem dropWhile_id_of_none {p : Char → Bool} {l : LC} (h : ∀ a ∈ l, ¬ p a) :
    l.dropWhile p = l := by
  cases l with
  | nil => rfl
  | cons a as => simp [List.dropWhile_cons, h a (by simp)]

theorem jsTrim_id {s : LC} (h : ∀ c ∈ s, ¬ isJsWs c) : jsTrim s = s := by
  unfold jsTrim
  rw [dropWhile_id_of_none h, dropWhile_id_of_none (by simpa using fun c hc => h c hc),
    List.reverse_reverse]

/-! ### natToStr and digitsToNat -/

theorem natToStrAux_irrel : ∀ f g n, n < f → n < g → natToStrAux f n = natToStrAux g n := by
  intro f
  induction f with
  | zero => omega
  | succ f ih =>
    intro g n hf hg
    cases g with
    | zero => omega
    | succ g =>
      simp only [natToStrAux]
      by_cases h10 : n < 10
      · simp [h10]
      · simp only [h10, if_false]
        rw [ih g (n / 10) (by omega) (by omega)]

theorem natToStr_unfold (n : Nat) :
    natToStr n = if n < 10 then [digitChar n] else natToStr (n / 10) ++ [digitChar (n % 10)] := by
  show natToStrAux (n + 1) n = _
  by_cases h10 : n < 10
  · simp [natToStrAux, h10]
  · simp only [natToStrAux, h10, if_false]
    rw [natToStrAux_irrel n (n / 10 + 1) (n / 10) (by omega) (by omega)]
    rfl

theorem digitChar_toNat {d : Nat} (h : d < 10) : (digitChar d).toNat = 48 + d := by
  interval_cases d <;> rfl

theorem isDig_digitChar {d : Nat} (h : d < 10) : isDig (digitChar d) = true := by
  interval_cases d <;> rfl

theorem natToStr_ne_nil (n : Nat) : natToStr n ≠ [] := by
  induction n using Nat.strong_induction_on with
  | _ n ih =>
    rw [natToStr_unfold]
    by_cases h10 : n < 10 <;> simp [h10]

theorem natToStr_digits (n : Nat) : ∀ c ∈ natToStr n, isDig c := by
  induction n using Nat.strong_induction_on with
  | _ n ih =>
    rw [natToStr_unfold]
    by_cases h10 : n < 10
    · simp only [h10, if_true]
      intro c hc
      simp at hc
      subst hc
      exact isDig_digitChar h10
    · simp only [h10, if_false]
      intro c hc
      rcases List.mem_append.mp hc with h | h
      · exact ih (n / 10) (by omega) c h
      · simp at h
        subst h
        exact isDig_digitChar (by omega)

theorem digitsToNat_append_digit (xs : LC) (c : Char) :
    digitsToNat (xs ++ [c]) = 10 * digitsToNat xs + (c.toNat - 48) := by
  simp [digitsToNat, List.foldl_append]
  omega

theorem digitsToNat_natToStr (n : Nat) : digitsToNat (natToStr n) = n := by
  induction n using Nat.strong_induction_on with
  | _ n ih =>
    rw [natToStr_unfold]
    by_cases h10 : n < 10
    · simp [h10, digitsToNat, digitChar_toNat h10]
    · simp only [h10, if_false]
      rw [digitsToNat_append_digit, ih (n / 10) (by omega), digitChar_toNat (by omega)]
      omega

/-! ### Character class facts -/

theorem char_ne_of_toNat {c d : Char} (h : c.toNat ≠ d.toNat) : c ≠ d :=
  fun e => h (by rw [e])

theorem isJsWs_imp_toNat {c : Char} (h : isJsWs c = true) :
    c.toNat = 32 ∨ c.toNat = 9 ∨ c.toNat = 10 ∨ c.toNat = 13 ∨ c.toNat = 11 ∨
    c.toNat = 12 ∨ c.toNat = 0xa0 ∨ c.toNat = 0xfeff ∨ c.toNat = 0x2028 ∨ c.toNat = 0x2029 := by
  simp only [isJsWs, Bool.or_eq_true, decide_eq_true_eq] at h
  rcases h with (((((((((h | h) | h) | h) | h) | h) | h) | h) | h) | h) <;>
    first
      | (subst h; decide)
      | omega

theorem isLineTerm_imp_toNat {c : Char} (h : isLineTerm c = true) :
    c.toNat = 10 ∨ c.toNat = 13 ∨ c.toNat = 0x2028 ∨ c.toNat = 0x2029 := by
  simp only [isLineTerm, Bool.or_eq_true, decide_eq_true_eq] at h
  rcases h with ((h | h) | h) | h <;>
    first
      | (subst h; decide)
      | omega

theorem iceChar_ranges {c : Char} (h : isIceChar c = true) :
    (48 ≤ c.toNat ∧ c.toNat ≤ 57) ∨ (65 ≤ c.toNat ∧ c.toNat ≤ 90) ∨
    (97 ≤ c.toNat ∧ c.toNat ≤ 122) ∨ c.toNat = 43 ∨ c.toNat = 47 := by
  simp only [isIceChar, isDig, Bool.or_eq_true, Bool.and_eq_true, decide_eq_true_eq] at h
  rcases h with (((h | h) | h) | h) | h
  · left; omega
  · right; left; omega
  · right; right; left; omega
  · subst h; decide
  · subst h; decide

theorem isHexUp_ranges {c : Char} (h : isHexUp c = true) :
    (48 ≤ c.toNat ∧ c.toNat ≤ 57) ∨ (65 ≤ c.toNat ∧ c.toNat ≤ 70) := by
  simp only [isHexUp, isDig, Bool.or_eq_true, Bool.and_eq_true, decide_eq_true_eq] at h
  omega

theorem isDig_ranges {c : Char} (h : isDig c = true) : 48 ≤ c.toNat ∧ c.toNat ≤ 57 := by
  simp only [isDig, Bool.and_eq_true, decide_eq_true_eq] at h
  omega

theorem escChar_plain {c : Char} (h34 : c.toNat ≠ 34) (h92 : c.toNat ≠ 92)
    (h32 : 32 ≤ c.toNat) : escChar c = [c] := by
  have hq : c ≠ '"' := char_ne_of_toNat (by simpa using h34)
  have hb : c ≠ '\\' := char_ne_of_toNat (by simpa using h92)
  have h08 : c ≠ '\x08' := char_ne_of_toNat (by simp; omega)
  have ht : c ≠ '\t' := char_ne_of_toNat (by simp; omega)
  have hn : c ≠ '\n' := char_ne_of_toNat (by simp; omega)
  have hf : c ≠ '\x0c' := char_ne_of_toNat (by simp; omega)
  have hr : c ≠ '\r' := char_ne_of_toNat (by simp; omega)
  simp [escChar, hq, hb, h08, ht, hn, hf, hr, show ¬(c.toNat < 32) by omega]

/-- The facts needed about every character of an ice credential. -/
theorem iceChar_facts {c : Char} (h : isIceChar c = true) :
    isJsWs c = false ∧ isLineTerm c = false ∧ c ≠ '=' ∧ c.toNat < 256 ∧ escChar c = [c] := by
  have hr := iceChar_ranges h
  refine ⟨?_, ?_, ?_, by omega, ?_⟩
  · cases hw : isJsWs c
    · rfl
    · have := isJsWs_imp_toNat hw; omega
  · cases hw : isLineTerm c
    · rfl
    · have := isLineTerm_imp_toNat hw; omega
  · exact char_ne_of_toNat (by simp; omega)
  · exact escChar_plain (by omega) (by omega) (by omega)

/-- The facts needed about every character of a rendered fingerprint
(uppercase hex digits and colons). -/
theorem fpChar_facts {c : Char} (h : isHexUp c = true ∨ c = ':') :
    isJsWs c = false ∧ isLineTerm c = false ∧ c ≠ '=' ∧ c.toNat < 256 ∧ escChar c = [c] := by
  have hr : (48 ≤ c.toNat ∧ c.toNat ≤ 58) ∨ (65 ≤ c.toNat ∧ c.toNat ≤ 70) := by
    rcases h with h | h
    · rcases isHexUp_ranges h with h | h
      · left; omega
      · right; omega
    · subst h; simp
  refine ⟨?_, ?_, ?_, by omega, ?_⟩
  · cases hw : isJsWs c
    · rfl
    · have := isJsWs_imp_toNat hw; omega
  · cases hw : isLineTerm c
    · rfl
    · have := isLineTerm_imp_toNat hw; omega
  · exact char_ne_of_toNat (by simp; omega)
  · exact escChar_plain (by omega) (by omega) (by omega)

/-- Every character jsHexByte emits is an uppercase hex digit. -/
theorem jsHexByte_chars {b : Nat} (hb : b < 256) : ∀ c ∈ jsHexByte b, isHexUp c = true := by
  have H : (List.range 256).all (fun b => (jsHexByte b).all isHexUp) = true := by decide
  rw [List.all_eq_true] at H
  have := H b (List.mem_range.mpr hb)
  rw [List.all_eq_true] at this
  exact fun c hc => this c hc

/-! ### Base64 alphabet facts -/

theorem b64Char_mem (n : Nat) : b64Char n ∈ b64Alphabet := by
  unfold b64Char
  by_cases hn : n < b64Alphabet.length
  · rw [List.getD_eq_getElem _ _ hn]
    exact List.getElem_mem hn
  · rw [List.getD_eq_default _ _ (Nat.le_of_not_lt hn)]
    decide

theorem b64Alphabet_facts : ∀ c ∈ b64Alphabet,
    isAsciiWs c = false ∧ c ≠ '=' ∧ c ≠ ':' ∧ c ≠ '.' ∧ c.toNat < 256 ∧
    escChar c = [c] ∧ isLineTerm c = false ∧ isJsWs c = false := by decide

theorem b64Char_ne_pad (n : Nat) : b64Char n ≠ '=' :=
  (b64Alphabet_facts _ (b64Char_mem n)).2.1

theorem b64Val_b64Char {n : Nat} (h : n < 64) : b64Val (b64Char n) = some n := by
  have H : (List.range 64).all (fun n => b64Val (b64Char n) == some n) = true := by decide
  rw [List.all_eq_true] at H
  simpa using H n (List.mem_range.mpr h)

theorem btoaCore_chars : ∀ bs : List Nat, ∀ c ∈ btoaCore bs, c ∈ b64Alphabet ∨ c = '=' := by
  intro bs
  induction bs using btoaCore.induct with
  | case1 => simp [btoaCore]
  | case2 a =>
    simp only [btoaCore, List.mem_cons]
    intro c hc
    rcases hc with h | h | h | h
    · exact Or.inl (h ▸ b64Char_mem _)
    · exact Or.inl (h ▸ b64Char_mem _)
    · exact Or.inr h
    · simp at h
      exact Or.inr h
  | case3 a b =>
    simp only [btoaCore, List.mem_cons]
    intro c hc
    rcases hc with h | h | h | h | h
    · exact Or.inl (h ▸ b64Char_mem _)
    · exact Or.inl (h ▸ b64Char_mem _)
    · exact Or.inl (h ▸ b64Char_mem _)
    · exact Or.inr h
    · simp at h
  | case4 a b c rest ih =>
    simp only [btoaCore, List.mem_cons]
    intro x hx
    rcases hx with h | h | h | h | h
    · exact Or.inl (h ▸ b64Char_mem _)
    · exact Or.inl (h ▸ b64Char_mem _)
    · exact Or.inl (h ▸ b64Char_mem _)
    · exact Or.inl (h ▸ b64Char_mem _)
    · exact ih x h

theorem btoaCore_len_mod (bs : List Nat) : (btoaCore bs).length % 4 = 0 := by
  induction bs using btoaCore.induct with
  | case1 => rfl
  | case2 a => simp [btoaCore]
  | case3 a b => simp [btoaCore]
  | case4 a b c rest ih =>
    simp only [btoaCore, List.length_cons]
    omega

theorem btoaCore_len_ge {bs : List Nat} (h : bs ≠ []) : 2 ≤ (btoaCore bs).length := by
  match bs with
  | [a] => simp [btoaCore]
  | [a, b] => simp [btoaCore]
  | a :: b :: c :: rest => simp [btoaCore]

/-! ### stripPad behavior -/

theorem stripPad_append2 (x : LC) : stripPad (x ++ ['=', '=']) = x := by
  unfold stripPad
  rw [List.reverse_append]
  simp

theorem stripPad_append1 {c : Char} (hc : c ≠ '=') (x : LC) :
    stripPad (x ++ [c, '=']) = x ++ [c] := by
  unfold stripPad
  rw [List.reverse_append]
  simp only [List.reverse_cons, List.reverse_nil, List.nil_append, List.cons_append]
  split
  · rename_i r heq
    rw [List.cons.injEq, List.cons.injEq] at heq
    exact absurd heq.2.1 hc
  · rename_i r heq
    rw [List.cons.injEq] at heq
    rw [← heq.2]
    simp
  · rename_i hne
    exact ((hne (c :: x.reverse)) rfl).elim

theorem stripPad_no_pad {c : Char} (hc : c ≠ '=') (y : LC) :
    stripPad (y ++ [c]) = y ++ [c] := by
  unfold stripPad
  rw [List.reverse_append]
  simp only [List.reverse_cons, List.reverse_nil, List.nil_append, List.cons_append]
  split
  · rename_i r heq
    rw [List.cons.injEq] at heq
    exact absurd heq.1 hc
  · rename_i r heq
    rw [List.cons.injEq] at heq
    exact absurd heq.1 hc
  · rfl

theorem stripPad_append_ge2 (y : LC) {x : LC} (hx : 2 ≤ x.length) :
    stripPad (y ++ x) = y ++ stripPad x := by
  rcases hr : x.reverse with _ | ⟨v, r⟩
  · have : x = [] := by simpa using congrArg List.reverse hr
    subst this
    simp at hx
  · rcases r with _ | ⟨u, t⟩
    · have : x = [v] := by simpa using congrArg List.reverse hr
      subst this
      simp at hx
    · have hx2 : x = t.reverse ++ [u, v] := by
        have := congrArg List.reverse hr
        simpa using this
      subst hx2
      by_cases hv : v = '='
      · subst hv
        by_cases hu : u = '='
        · subst hu
          rw [show y ++ (t.reverse ++ ['=', '=']) = (y ++ t.reverse) ++ ['=', '='] by simp,
            stripPad_append2, stripPad_append2]
        · rw [show y ++ (t.reverse ++ [u, '=']) = (y ++ t.reverse) ++ [u, '='] by simp,
            stripPad_append1 hu, stripPad_append1 hu]
          simp
      · rw [show t.reverse ++ [u, v] = (t.reverse ++ [u]) ++ [v] by simp,
          show y ++ ((t.reverse ++ [u]) ++ [v]) = (y ++ (t.reverse ++ [u])) ++ [v] by simp,
          stripPad_no_pad hv, stripPad_no_pad hv]
        simp

theorem stripPad_btoaCore (bs : List Nat) : stripPad (btoaCore bs) = btoaUnpadded bs := by
  induction bs using btoaCore.induct with
  | case1 => rfl
  | case2 a =>
    show stripPad ([b64Char (a / 4), b64Char (a % 4 * 16)] ++ ['=', '=']) = _
    rw [stripPad_append2]
    rfl
  | case3 a b =>
    show stripPad ([b64Char (a / 4), b64Char (a % 4 * 16 + b / 16)] ++
      [b64Char (b % 16 * 4), '=']) = _
    rw [stripPad_append1 (b64Char_ne_pad _)]
    rfl
  | case4 a b c rest ih =>
    rcases hrest : rest with _ | ⟨r0, rtail⟩
    · show stripPad ([b64Char (a / 4), b64Char (a % 4 * 16 + b / 16),
        b64Char (b % 16 * 4 + c / 64)] ++ [b64Char (c % 64)]) = _
      rw [stripPad_no_pad (b64Char_ne_pad _)]
      rfl
    · subst hrest
      show stripPad ([b64Char (a / 4), b64Char (a % 4 * 16 + b / 16),
        b64Char (b % 16 * 4 + c / 64), b64Char (c % 64)] ++ btoaCore (r0 :: rtail)) = _
      rw [stripPad_append_ge2 _ (btoaCore_len_ge (by simp)), ih]
      rfl

/-! ### Base64 round trip -/

theorem mapM_b64_cons {c : Char} {v : Nat} {cs : LC} {vs : List Nat}
    (h1 : b64Val c = some v) (h2 : cs.mapM b64Val = some vs) :
    (c :: cs).mapM b64Val = some (v :: vs) := by
  rw [List.mapM_cons, h1, h2]
  rfl

theorem decode_unpadded : ∀ bs : List Nat, (∀ x ∈ bs, x < 256) →
    ((btoaUnpadded bs).mapM b64Val).map atobCore = some bs := by
  intro bs
  induction bs using btoaUnpadded.induct with
  | case1 => intro _; rfl
  | case2 a =>
    intro h
    have ha := h a (by simp)
    have e1 : (btoaUnpadded [a]).mapM b64Val = some [a / 4, a % 4 * 16] :=
      mapM_b64_cons (b64Val_b64Char (by omega))
        (mapM_b64_cons (b64Val_b64Char (by omega)) rfl)
    rw [e1, Option.map_some']
    show some [a / 4 * 4 + a % 4 * 16 / 16] = some [a]
    congr 2
    omega
  | case3 a b =>
    intro h
    have ha := h a (by simp)
    have hb := h b (by simp)
    have e1 : (btoaUnpadded [a, b]).mapM b64Val =
        some [a / 4, a % 4 * 16 + b / 16, b % 16 * 4] :=
      mapM_b64_cons (b64Val_b64Char (by omega))
        (mapM_b64_cons (b64Val_b64Char (by omega))
          (mapM_b64_cons (b64Val_b64Char (by omega)) rfl))
    rw [e1, Option.map_some']
    show some [(a / 4 * 4 + (a % 4 * 16 + b / 16) / 16),
      ((a % 4 * 16 + b / 16) % 16 * 16 + b % 16 * 4 / 4)] = some [a, b]
    congr 3
    · omega
    · omega
  | case4 a b c rest ih =>
    intro h
    have ha := h a (by simp)
    have hb := h b (by simp)
    have hc := h c (by simp)
    have ihh := ih (fun x hx => h x (by simp [hx]))
    rcases hm : (btoaUnpadded rest).mapM b64Val with _ | vals
    · rw [hm] at ihh
      simp at ihh
    · rw [hm] at ihh
      simp only [Option.map_some', Option.some.injEq] at ihh
      have e1 : (btoaUnpadded (a :: b :: c :: rest)).mapM b64Val =
          some (a / 4 :: (a % 4 * 16 + b / 16) :: (b % 16 * 4 + c / 64) :: c % 64 :: vals) :=
        mapM_b64_cons (b64Val_b64Char (by omega))
          (mapM_b64_cons (b64Val_b64Char (by omega))
            (mapM_b64_cons (b64Val_b64Char (by omega))
              (mapM_b64_cons (b64Val_b64Char (by omega)) hm)))
      rw [e1, Option.map_some']
      show some ((a / 4 * 4 + (a % 4 * 16 + b / 16) / 16) ::
        ((a % 4 * 16 + b / 16) % 16 * 16 + (b % 16 * 4 + c / 64) / 4) ::
        ((b % 16 * 4 + c / 64) % 4 * 64 + c % 64) :: atobCore vals) = some (a :: b :: c :: rest)
      rw [ihh]
      congr 2
      · omega
      · congr 1
        · omega
        · congr 1
          omega

theorem btoaUnpadded_len_mod (bs : List Nat) : (btoaUnpadded bs).length % 4 ≠ 1 := by
  induction bs using btoaUnpadded.induct with
  | case1 => simp [btoaUnpadded]
  | case2 a => simp [btoaUnpadded]
  | case3 a b => simp [btoaUnpadded]
  | case4 a b c rest ih => simp [btoaUnpadded]; omega

theorem jsAtob_jsBtoa {bs : List Nat} {s : LC} (h : jsBtoa bs = .ok s) :
    jsAtob s = .ok bs := by
  unfold jsBtoa at h
  split at h
  case isFalse => exact absurd h (by simp)
  case isTrue hall =>
    have hs : s = btoaCore bs := by
      have := h
      simp only [Except.ok.injEq] at this
      exact this.symm
    subst hs
    have hch := btoaCore_chars bs
    have hfil : (btoaCore bs).filter (fun c => !isAsciiWs c) = btoaCore bs := by
      rw [List.filter_eq_self]
      intro c hc
      rcases hch c hc with hm | he
      · simp [(b64Alphabet_facts c hm).1]
      · subst he; rfl
    unfold jsAtob
    simp only [hfil, btoaCore_len_mod, if_pos rfl, reduceIte, stripPad_btoaCore]
    rw [if_neg (btoaUnpadded_len_mod bs)]
    have hall' : ∀ x ∈ bs, x < 256 := by
      intro x hx
      exact of_decide_eq_true (List.all_eq_true.mp hall x hx)
    have hdec := decode_unpadded bs hall'
    rcases hm : (btoaUnpadded bs).mapM b64Val with _ | vals
    · rw [hm] at hdec
      simp at hdec
    · rw [hm] at hdec
      simp only [Option.map_some', Option.some.injEq] at hdec
      show Except.ok (atobCore vals) = Except.ok bs
      rw [hdec]

/-! ### JSON printer and parser round trip on the shapes used here -/

theorem char_eq_of_toNat_eq {c d : Char} (h : c.toNat = d.toNat) : c = d := by
  have := congrArg Char.ofNat h
  rwa [Char.ofNat_toNat, Char.ofNat_toNat] at this

theorem escChar_of_plain {c : Char} (h : c ≠ '"' ∧ c ≠ '\\' ∧ 32 ≤ c.toNat) :
    escChar c = [c] := by
  refine escChar_plain ?_ ?_ (by omega)
  · intro he
    exact h.1 (char_eq_of_toNat_eq (by simpa using he))
  · intro he
    exact h.2.1 (char_eq_of_toNat_eq (by simpa using he))

theorem flatMap_escChar_plain {s : LC} (h : plainStr s) : s.flatMap escChar = s := by
  induction s with
  | nil => rfl
  | cons c cs ih =>
    rw [List.flatMap_cons, escChar_of_plain (h c (by simp)),
      ih (fun x hx => h x (by simp [hx]))]
    rfl

theorem printString_plain {s : LC} (h : plainStr s) : printString s = '"' :: s ++ ['"'] := by
  unfold printString
  rw [flatMap_escChar_plain h]

theorem printString_plain_append {s : LC} (h : plainStr s) (X : LC) :
    printString s ++ X = '"' :: (s ++ '"' :: X) := by
  rw [printString_plain h]
  simp

theorem parseStringBodyF_plain {s : LC} (h : plainStr s) (rest : LC) :
    ∀ f, s.length < f → parseStringBodyF f (s ++ '"' :: rest) = some (s, rest) := by
  induction s with
  | nil =>
    intro f hf
    match f, hf with
    | f' + 1, _ => rfl
  | cons c cs ih =>
    intro f hf
    match f, hf with
    | f' + 1, hf' =>
      obtain ⟨h1, h2, h3⟩ := h c (by simp)
      show parseStringBodyF (f' + 1) (c :: (cs ++ '"' :: rest)) = _
      rw [parseStringBodyF.eq_def]
      simp only [if_neg h1, if_neg h2, if_neg (show ¬ c.toNat < 32 by omega)]
      rw [ih (fun x hx => h x (by simp [hx])) f' (by
        simp only [List.length_cons] at hf'
        omega)]
      rfl

theorem parseStringBody_plain {s : LC} (h : plainStr s) (rest : LC) :
    parseStringBody (s ++ '"' :: rest) = some (s, rest) := by
  unfold parseStringBody
  refine parseStringBodyF_plain h rest _ ?_
  simp only [List.length_append, List.length_cons]
  omega

theorem parseF_val_str {s : LC} (h : plainStr s) (g : Nat) (rest : LC) :
    parseF (g + 1) .pval ('"' :: (s ++ '"' :: rest)) = some (.oval (.jstr s), rest) := by
  show (match parseStringBody (s ++ '"' :: rest) with
    | some (str, r2) => some (POut.oval (JVal.jstr str), r2)
    | none => none) = _
  rw [parseStringBody_plain h]

theorem parseF_val_true (g : Nat) (rest : LC) :
    parseF (g + 1) .pval ('t' :: 'r' :: 'u' :: 'e' :: rest) = some (.oval (.jbool true), rest) :=
  rfl

theorem parseF_val_false (g : Nat) (rest : LC) :
    parseF (g + 1) .pval ('f' :: 'a' :: 'l' :: 's' :: 'e' :: rest) =
      some (.oval (.jbool false), rest) :=
  rfl

theorem parseF_val_null (g : Nat) (rest : LC) :
    parseF (g + 1) .pval ('n' :: 'u' :: 'l' :: 'l' :: rest) = some (.oval .jnull, rest) :=
  rfl

theorem parseF_elems_strs : ∀ (ss : List LC), ss ≠ [] → (∀ s ∈ ss, plainStr s) →
    ∀ (g : Nat) (rest : LC),
      parseF (g + (ss.length + 1)) .pelems (printElems (ss.map .jstr) ++ ']' :: rest) =
        some (.oelems (ss.map .jstr), rest) := by
  intro ss
  induction ss with
  | nil => intro h; exact absurd rfl h
  | cons s ss ih =>
    intro _ hp g rest
    rcases ss with _ | ⟨s2, ss'⟩
    · have hps : printElems ([s].map JVal.jstr) ++ ']' :: rest = '"' :: (s ++ '"' :: (']' :: rest)) := by
        show printJson (.jstr s) ++ ']' :: rest = _
        show printString s ++ ']' :: rest = _
        exact printString_plain_append (hp s (by simp)) _
      rw [hps]
      show (match parseF (g + 1) .pval ('"' :: (s ++ '"' :: (']' :: rest))) with
        | some (.oval v, r) =>
          (match skipWs r with
            | ',' :: r2 =>
              (match parseF (g + 1) .pelems r2 with
                | some (.oelems vs, r3) => some (POut.oelems (v :: vs), r3)
                | _ => none)
            | ']' :: r2 => some (POut.oelems [v], r2)
            | _ => none)
        | _ => none) = _
      rw [parseF_val_str (hp s (by simp)) g (']' :: rest)]
      rfl
    · have hstep : printElems ((s :: s2 :: ss').map JVal.jstr) ++ ']' :: rest =
          '"' :: (s ++ '"' :: (',' :: (printElems ((s2 :: ss').map JVal.jstr) ++ ']' :: rest))) := by
        show printJson (.jstr s) ++ ',' :: printElems ((s2 :: ss').map JVal.jstr) ++ ']' :: rest = _
        show printString s ++ ',' :: printElems ((s2 :: ss').map JVal.jstr) ++ ']' :: rest = _
        rw [printString_plain (hp s (by simp))]
        simp
      rw [hstep]
      have hlen : (s :: s2 :: ss').length + 1 = ((s2 :: ss').length + 1) + 1 := by simp
      rw [show g + ((s :: s2 :: ss').length + 1) = (g + ((s2 :: ss').length + 1)) + 1 by
        simp; omega]
      show (match parseF (g + ((s2 :: ss').length + 1)) .pval
          ('"' :: (s ++ '"' :: (',' :: (printElems ((s2 :: ss').map JVal.jstr) ++ ']' :: rest)))) with
        | some (.oval v, r) =>
          (match skipWs r with
            | ',' :: r2 =>
              (match parseF (g + ((s2 :: ss').length + 1)) .pelems r2 with
                | some (.oelems vs, r3) => some (POut.oelems (v :: vs), r3)
                | _ => none)
            | ']' :: r2 => some (POut.oelems [v], r2)
            | _ => none)
        | _ => none) = _
      rw [show g + ((s2 :: ss').length + 1) = (g + (s2 :: ss').length) + 1 by omega]
      rw [parseF_val_str (hp s (by simp)) _ _]
      show (match parseF ((g + (s2 :: ss').length) + 1) .pelems
          (printElems ((s2 :: ss').map JVal.jstr) ++ ']' :: rest) with
        | some (.oelems vs, r3) => some (POut.oelems (JVal.jstr s :: vs), r3)
        | _ => none) = _
      rw [show (g + (s2 :: ss').length) + 1 = g + ((s2 :: ss').length + 1) by omega]
      rw [ih (by simp) (fun x hx => hp x (by simp [hx])) g rest]
      rfl

theorem flat_arr_shape {xs : List JVal}
    (hf : ∀ v ∈ xs, ∃ s, v = JVal.jstr s ∧ plainStr s) :
    ∃ ss : List LC, xs = ss.map .jstr ∧ ∀ s ∈ ss, plainStr s := by
  induction xs with
  | nil => exact ⟨[], rfl, by simp⟩
  | cons v xs ih =>
    obtain ⟨s, hv, hp⟩ := hf v (by simp)
    obtain ⟨ss, hxs, hps⟩ := ih (fun x hx => hf x (by simp [hx]))
    exact ⟨s :: ss, by simp [hv, hxs], by
      intro x hx
      rcases List.mem_cons.mp hx with h | h
      · exact h ▸ hp
      · exact hps x h⟩

theorem parseF_val_flat {v : JVal} (hf : isFlatVal v) (g : Nat) (rest : LC) :
    parseF (g + fuelV v) .pval (printJson v ++ rest) = some (.oval v, rest) := by
  match v with
  | .jstr s =>
    show parseF (g + 1) .pval (printString s ++ rest) = _
    rw [printString_plain_append hf]
    exact parseF_val_str hf g rest
  | .jbool true => exact parseF_val_true g rest
  | .jbool false => exact parseF_val_false g rest
  | .jnull => exact parseF_val_null g rest
  | .jarr xs =>
    obtain ⟨ss, hxs, hps⟩ := flat_arr_shape hf
    subst hxs
    rcases ss with _ | ⟨s0, ss'⟩
    · rfl
    · have hT : ∃ T, printElems ((s0 :: ss').map JVal.jstr) ++ ']' :: rest = '"' :: T := by
        rcases ss' with _ | ⟨s1, ss''⟩
        · exact ⟨s0 ++ '"' :: ']' :: rest, by
            show printString s0 ++ ']' :: rest = _
            exact printString_plain_append (hps s0 (by simp)) _⟩
        · exact ⟨s0 ++ '"' :: (',' :: (printElems ((s1 :: ss'').map JVal.jstr) ++ ']' :: rest)), by
            show printString s0 ++ ',' :: printElems ((s1 :: ss'').map JVal.jstr) ++ ']' :: rest = _
            rw [printString_plain (hps s0 (by simp))]
            simp⟩
      obtain ⟨T, hT⟩ := hT
      have harg : printJson (.jarr ((s0 :: ss').map JVal.jstr)) ++ rest =
          '[' :: ('"' :: T) := by
        show ('[' :: printElems ((s0 :: ss').map JVal.jstr) ++ [']']) ++ rest = _
        rw [← hT]
        simp
      rw [harg]
      have hfuel : g + fuelV (.jarr ((s0 :: ss').map JVal.jstr)) =
          (g + ((s0 :: ss').length + 1)) + 1 := by
        show g + (((s0 :: ss').map JVal.jstr).length + 2) = _
        simp
        omega
      rw [hfuel]
      show (match parseF (g + ((s0 :: ss').length + 1)) .pelems ('"' :: T) with
        | some (.oelems vs, r3) => some (POut.oval (JVal.jarr vs), r3)
        | _ => none) = _
      rw [← hT, parseF_elems_strs (s0 :: ss') (by simp) hps g rest]

theorem printMembers_head {kvs : List (LC × JVal)} (hne : kvs ≠ [])
    (hk : ∀ kv ∈ kvs, plainStr kv.1) (X : LC) :
    ∃ T, printMembers kvs ++ X = '"' :: T := by
  rcases kvs with _ | ⟨⟨k, v⟩, kvs'⟩
  · exact absurd rfl hne
  · rcases kvs' with _ | ⟨kv2, kvs''⟩
    · refine ⟨k ++ '"' :: (':' :: printJson v ++ X), ?_⟩
      show (printString k ++ ':' :: printJson v) ++ X = _
      rw [printString_plain (hk (k, v) (by simp))]
      simp
    · refine ⟨k ++ '"' :: (':' :: printJson v ++ ',' :: printMembers (kv2 :: kvs'') ++ X), ?_⟩
      show (printString k ++ ':' :: printJson v ++ ',' :: printMembers (kv2 :: kvs'')) ++ X = _
      rw [printString_plain (hk (k, v) (by simp))]
      simp

theorem parseF_members_flat : ∀ (kvs : List (LC × JVal)), kvs ≠ [] →
    (∀ kv ∈ kvs, plainStr kv.1 ∧ isFlatVal kv.2) → ∀ (g : Nat) (rest : LC),
    parseF (g + fuelMs kvs) .pmembers (printMembers kvs ++ rbrace :: rest) =
      some (.omembers kvs, rest) := by
  intro kvs
  induction kvs with
  | nil => intro h; exact absurd rfl h
  | cons kv kvs' ih =>
    intro _ hkv g rest
    obtain ⟨k, v⟩ := kv
    obtain ⟨hk, hv⟩ := hkv (k, v) (by simp)
    rcases kvs' with _ | ⟨⟨k2, v2⟩, kvs''⟩
    · have harg : printMembers [(k, v)] ++ rbrace :: rest =
          '"' :: (k ++ '"' :: (':' :: (printJson v ++ rbrace :: rest))) := by
        show (printString k ++ ':' :: printJson v) ++ rbrace :: rest = _
        rw [printString_plain hk]
        simp
      rw [harg]
      have hfuel : g + fuelMs [(k, v)] = (g + (fuelV v + 1)) + 1 := by
        show g + (fuelV v + 1 + 1) = _
        omega
      rw [hfuel]
      show (match parseStringBody (k ++ '"' :: (':' :: (printJson v ++ rbrace :: rest))) with
        | some (key, r2) =>
          (match skipWs r2 with
            | ':' :: r3 =>
              (match parseF (g + (fuelV v + 1)) .pval r3 with
                | some (.oval vv, r4) =>
                  (match skipWs r4 with
                    | [] => none
                    | c5 :: r5 =>
                      if c5 = ',' then
                        (match parseF (g + (fuelV v + 1)) .pmembers r5 with
                          | some (.omembers kvs2, r6) =>
                            some (POut.omembers ((key, vv) :: kvs2), r6)
                          | _ => none)
                      else if c5 = rbrace then some (POut.omembers [(key, vv)], r5)
                      else none)
                | _ => none)
            | _ => none)
        | none => none) = _
      rw [parseStringBody_plain hk]
      show (match parseF (g + (fuelV v + 1)) .pval (printJson v ++ rbrace :: rest) with
        | some (.oval vv, r4) =>
          (match skipWs r4 with
            | [] => none
            | c5 :: r5 =>
              if c5 = ',' then
                (match parseF (g + (fuelV v + 1)) .pmembers r5 with
                  | some (.omembers kvs2, r6) =>
                    some (POut.omembers ((k, vv) :: kvs2), r6)
                  | _ => none)
              else if c5 = rbrace then some (POut.omembers [(k, vv)], r5)
              else none)
        | _ => none) = _
      rw [show g + (fuelV v + 1) = (g + 1) + fuelV v by omega,
        parseF_val_flat hv (g + 1) (rbrace :: rest)]
      show (if rbrace = ',' then _ else if rbrace = rbrace then
        some (POut.omembers [(k, v)], rest) else none) = some (POut.omembers [(k, v)], rest)
      rw [if_neg (by decide), if_pos rfl]
    · have hkv' : ∀ kv ∈ (k2, v2) :: kvs'', plainStr kv.1 ∧ isFlatVal kv.2 :=
        fun x hx => hkv x (by simp [hx])
      have harg : printMembers ((k, v) :: (k2, v2) :: kvs'') ++ rbrace :: rest =
          '"' :: (k ++ '"' :: (':' :: (printJson v ++
            ',' :: (printMembers ((k2, v2) :: kvs'') ++ rbrace :: rest)))) := by
        show (printString k ++ ':' :: printJson v ++ ',' ::
          printMembers ((k2, v2) :: kvs'')) ++ rbrace :: rest = _
        rw [printString_plain hk]
        simp
      rw [harg]
      have hfuel : g + fuelMs ((k, v) :: (k2, v2) :: kvs'') =
          (g + (fuelV v + fuelMs ((k2, v2) :: kvs''))) + 1 := by
        show g + (fuelV v + fuelMs ((k2, v2) :: kvs'') + 1) = _
        omega
      rw [hfuel]
      show (match parseStringBody (k ++ '"' :: (':' :: (printJson v ++
          ',' :: (printMembers ((k2, v2) :: kvs'') ++ rbrace :: rest)))) with
        | some (key, r2) =>
          (match skipWs r2 with
            | ':' :: r3 =>
              (match parseF (g + (fuelV v + fuelMs ((k2, v2) :: kvs''))) .pval r3 with
                | some (.oval vv, r4) =>
                  (match skipWs r4 with
                    | [] => none
                    | c5 :: r5 =>
                      if c5 = ',' then
                        (match parseF (g + (fuelV v + fuelMs ((k2, v2) :: kvs''))) .pmembers r5 with
                          | some (.omembers kvs2, r6) =>
                            some (POut.omembers ((key, vv) :: kvs2), r6)
                          | _ => none)
                      else if c5 = rbrace then some (POut.omembers [(key, vv)], r5)
                      else none)
                | _ => none)
            | _ => none)
        | none => none) = _
      rw [parseStringBody_plain hk]
      show (match parseF (g + (fuelV v + fuelMs ((k2, v2) :: kvs''))) .pval
          (printJson v ++ ',' :: (printMembers ((k2, v2) :: kvs'') ++ rbrace :: rest)) with
        | some (.oval vv, r4) =>
          (match skipWs r4 with
            | [] => none
            | c5 :: r5 =>
              if c5 = ',' then
                (match parseF (g + (fuelV v + fuelMs ((k2, v2) :: kvs''))) .pmembers r5 with
                  | some (.omembers kvs2, r6) =>
                    some (POut.omembers ((k, vv) :: kvs2), r6)
                  | _ => none)
              else if c5 = rbrace then some (POut.omembers [(k, vv)], r5)
              else none)
        | _ => none) = _
      rw [show g + (fuelV v + fuelMs ((k2, v2) :: kvs'')) =
        (g + fuelMs ((k2, v2) :: kvs'')) + fuelV v by omega,
        parseF_val_flat hv _ (',' :: (printMembers ((k2, v2) :: kvs'') ++ rbrace :: rest))]
      show (match parseF ((g + fuelMs ((k2, v2) :: kvs'')) + fuelV v) .pmembers
          (printMembers ((k2, v2) :: kvs'') ++ rbrace :: rest) with
        | some (.omembers kvs2, r6) => some (POut.omembers ((k, v) :: kvs2), r6)
        | _ => none) = _
      rw [show (g + fuelMs ((k2, v2) :: kvs'')) + fuelV v =
        (g + fuelV v) + fuelMs ((k2, v2) :: kvs'') by omega,
        ih (by simp) hkv' (g + fuelV v) rest]

theorem parseF_val_obj {kvs : List (LC × JVal)} (hne : kvs ≠ [])
    (hkv : ∀ kv ∈ kvs, plainStr kv.1 ∧ isFlatVal kv.2) (g : Nat) (rest : LC) :
    parseF (g + (fuelMs kvs + 1)) .pval (printJson (.jobj kvs) ++ rest) =
      some (.oval (.jobj kvs), rest) := by
  obtain ⟨T, hT⟩ := printMembers_head hne (fun kv hkv' => (hkv kv hkv').1) (rbrace :: rest)
  have harg : printJson (.jobj kvs) ++ rest = lbrace :: ('"' :: T) := by
    show (lbrace :: printMembers kvs ++ [rbrace]) ++ rest = _
    rw [← hT]
    simp
  rw [harg, show g + (fuelMs kvs + 1) = (g + fuelMs kvs) + 1 by omega]
  show (match parseF (g + fuelMs kvs) .pmembers ('"' :: T) with
    | some (.omembers kvs2, r3) => some (POut.oval (JVal.jobj kvs2), r3)
    | _ => none) = _
  rw [← hT, parseF_members_flat kvs hne hkv g rest]

theorem printString_len (k : LC) : 2 ≤ (printString k).length := by
  unfold printString
  simp

theorem printElems_len : ∀ xs : List JVal, xs.length ≤ (printElems xs).length + 1 := by
  intro xs
  induction xs with
  | nil => simp [printElems]
  | cons x t ih =>
    cases t with
    | nil => simp [printElems]
    | cons y t' =>
      rw [show printElems (x :: y :: t') = printJson x ++ ',' :: printElems (y :: t') from rfl]
      simp only [List.length_append, List.length_cons] at *
      omega

theorem fuelV_le (v : JVal) : fuelV v ≤ (printJson v).length + 2 := by
  match v with
  | .jstr s => simp [fuelV]
  | .jnum raw => simp [fuelV]
  | .jbool b => simp [fuelV]
  | .jnull => simp [fuelV]
  | .jobj kvs => simp [fuelV]
  | .jarr ss =>
    show ss.length + 2 ≤ ('[' :: printElems ss ++ [']']).length + 2
    have := printElems_len ss
    simp only [List.length_cons, List.length_append]
    omega

theorem fuelMs_le : ∀ kvs : List (LC × JVal), fuelMs kvs ≤ 2 * (printMembers kvs).length + 2 := by
  intro kvs
  induction kvs with
  | nil => simp [fuelMs, printMembers]
  | cons kv rest ih =>
    obtain ⟨k, v⟩ := kv
    have hfv := fuelV_le v
    have hpk := printString_len k
    cases rest with
    | nil =>
      rw [show fuelMs [(k, v)] = fuelV v + 1 + 1 from rfl,
        show printMembers [(k, v)] = printString k ++ ':' :: printJson v from rfl]
      simp only [List.length_append, List.length_cons]
      omega
    | cons kv2 rest' =>
      rw [show fuelMs ((k, v) :: kv2 :: rest') = fuelV v + fuelMs (kv2 :: rest') + 1 from rfl,
        show printMembers ((k, v) :: kv2 :: rest') =
          printString k ++ ':' :: printJson v ++ ',' :: printMembers (kv2 :: rest') from rfl]
      simp only [List.length_append, List.length_cons] at *
      omega

theorem jsonParse_printJson_obj {kvs : List (LC × JVal)} (hne : kvs ≠ [])
    (hkv : ∀ kv ∈ kvs, plainStr kv.1 ∧ isFlatVal kv.2) :
    jsonParse (printJson (.jobj kvs)) = some (.jobj kvs) := by
  have hL : (printJson (.jobj kvs)).length = (printMembers kvs).length + 2 := by
    show (lbrace :: printMembers kvs ++ [rbrace]).length = _
    simp
  have hle : fuelMs kvs + 1 ≤ 2 * (printJson (.jobj kvs)).length + 2 := by
    have := fuelMs_le kvs
    omega
  have hp := parseF_val_obj hne hkv (2 * (printJson (.jobj kvs)).length + 2 - (fuelMs kvs + 1)) []
  rw [List.append_nil] at hp
  unfold jsonParse
  rw [show 2 * (printJson (.jobj kvs)).length + 2 =
    2 * (printJson (.jobj kvs)).length + 2 - (fuelMs kvs + 1) + (fuelMs kvs + 1) by omega]
  rw [hp]
  rfl

/-! ### Scan lemmas for the line-capture regex -/

theorem isPrefixOf_self_append : ∀ (pat X : LC), pat.isPrefixOf (pat ++ X) = true := by
  intro pat X
  induction pat with
  | nil => simp [List.isPrefixOf]
  | cons p ps ih => simp [List.isPrefixOf, ih]

theorem mismWithin_blocks : ∀ {pat s : LC}, mismWithin pat s = true →
    ∀ ext, pat.isPrefixOf (s ++ ext) = false := by
  intro pat
  induction pat with
  | nil => intro s h; cases s <;> simp [mismWithin] at h
  | cons p ps ih =>
    intro s h ext
    cases s with
    | nil => simp [mismWithin] at h
    | cons c cs =>
      simp only [mismWithin, Bool.or_eq_true, decide_eq_true_eq] at h
      rcases h with h | h
      · simp [List.isPrefixOf, beq_eq_false_iff_ne.mpr h]
      · simp [List.isPrefixOf, ih h ext]

theorem tryCapture_none_of_mism {pat s : LC} (h : mismWithin pat s = true) (ext : LC) :
    tryCapture pat (s ++ ext) = none := by
  unfold tryCapture
  rw [mismWithin_blocks h ext]
  simp

theorem flc_cons_none {pat : LC} {c : Char} {s : LC} (h : tryCapture pat (c :: s) = none) :
    firstLineCapture pat (c :: s) = firstLineCapture pat s := by
  show (match tryCapture pat (c :: s) with
    | some cap => some cap
    | none => firstLineCapture pat s) = _
  rw [h]

theorem flc_skip_concrete {pat : LC} : ∀ {pre : LC} (rest : LC),
    noLineStartIn pat pre = true →
    firstLineCapture pat (pre ++ rest) = firstLineCapture pat rest := by
  intro pre
  induction pre with
  | nil => intro rest _; rfl
  | cons c pre' ih =>
    intro rest h
    simp only [noLineStartIn, Bool.and_eq_true] at h
    show firstLineCapture pat (c :: (pre' ++ rest)) = _
    rw [flc_cons_none (by
      have := tryCapture_none_of_mism h.1 rest
      simpa using this)]
    exact ih rest h.2

theorem flc_skip_seg {p0 p1 : Char} {pat' : LC} : ∀ {seg : LC} {rest : LC},
    (∀ c ∈ seg, c ≠ p1) → (∀ c, rest.head? = some c → c ≠ p1) →
    firstLineCapture (p0 :: p1 :: pat') (seg ++ rest) =
      firstLineCapture (p0 :: p1 :: pat') rest := by
  intro seg
  induction seg with
  | nil => intro rest _ _; rfl
  | cons c seg' ih =>
    intro rest hseg hrest
    show firstLineCapture (p0 :: p1 :: pat') (c :: (seg' ++ rest)) = _
    have hpre : (p0 :: p1 :: pat').isPrefixOf (c :: (seg' ++ rest)) = false := by
      simp only [List.isPrefixOf, Bool.and_eq_false_iff]
      right
      cases seg' with
      | nil =>
        cases rest with
        | nil => rfl
        | cons e rr =>
          simp only [List.nil_append, List.isPrefixOf, Bool.and_eq_false_iff]
          left
          exact beq_eq_false_iff_ne.mpr (Ne.symm (hrest e rfl))
      | cons d seg'' =>
        simp only [List.cons_append, List.isPrefixOf, Bool.and_eq_false_iff]
        left
        exact beq_eq_false_iff_ne.mpr (Ne.symm (hseg d (by simp)))
    rw [flc_cons_none (by unfold tryCapture; rw [hpre]; simp)]
    exact ih (fun x hx => hseg x (by simp [hx])) hrest

theorem flc_hit {pat u rest : LC} (hpat : pat ≠ []) (hu : u ≠ [])
    (hterm : ∀ c ∈ u, isLineTerm c = false) :
    firstLineCapture pat (pat ++ (u ++ '\r' :: rest)) = some u := by
  have hc1 : (u ++ '\r' :: rest).takeWhile (fun c => !isLineTerm c) = u := by
    rw [takeWhile_append_all (by
      intro a ha
      simp [hterm a ha])]
    rw [List.takeWhile_cons]
    norm_num [isLineTerm]
  have hcap : tryCapture pat (pat ++ (u ++ '\r' :: rest)) = some u := by
    unfold tryCapture
    rw [isPrefixOf_self_append]
    simp only [if_true]
    rw [List.drop_left, hc1]
    rw [if_neg (by simpa using hu)]
  cases pat with
  | nil => exact absurd rfl hpat
  | cons p pat' =>
    show (match tryCapture (p :: pat') ((p :: pat') ++ (u ++ '\r' :: rest)) with
      | some cap => some cap
      | none => firstLineCapture (p :: pat') (pat' ++ (u ++ '\r' :: rest))) = _
    rw [hcap]

/-! ### Scan lemmas for the candidate regex -/

theorem dropWhile_head_false {p : Char → Bool} : ∀ {l : LC} {x : Char} {xs : LC},
    l.dropWhile p = x :: xs → p x = false := by
  intro l
  induction l with
  | nil => intro x xs h; simp at h
  | cons c cs ih =>
    intro x xs h
    rw [List.dropWhile_cons] at h
    by_cases hc : p c
    · rw [if_pos hc] at h
      exact ih h
    · rw [if_neg hc] at h
      cases h
      exact Bool.not_eq_true _ ▸ (by simpa using hc)

theorem candAt_none_of_blocked {s : LC} (h : candBlockedAt s = true) (rest : LC) :
    candAt (s ++ rest) = none := by
  unfold candBlockedAt at h
  split at h
  · simp at h
  case isFalse hs =>
    have hsne : s ≠ [] := by simpa using hs
    split at h
    case isTrue hemp =>
      cases s with
      | nil => exact absurd rfl hsne
      | cons c cs =>
        rw [List.takeWhile_cons] at hemp
        by_cases hc : isDig c
        · rw [if_pos hc] at hemp
          simp at hemp
        · unfold candAt
          rw [show (c :: cs) ++ rest = c :: (cs ++ rest) from rfl]
          rw [List.takeWhile_cons, if_neg hc]
          simp
    case isFalse hemp =>
      rcases hd : s.dropWhile isDig with _ | ⟨x, xs⟩
      · rw [hd] at h
        simp at h
      · rw [hd] at h
        have hx : isDig x = false := dropWhile_head_false hd
        have hsplit : s = s.takeWhile isDig ++ x :: xs := by
          rw [← hd]
          exact (List.takeWhile_append_dropWhile isDig s).symm
        have htw : ∀ c ∈ s.takeWhile isDig, isDig c := fun c hc =>
          List.mem_takeWhile_imp hc
        by_cases hxdot : x = '.'
        · subst hxdot
          simp at h
        · have hxdot' : x ≠ '.' := hxdot
          unfold candAt
          rw [show s ++ rest = s.takeWhile isDig ++ (x :: (xs ++ rest)) by
            conv_lhs => rw [hsplit]
            simp]
          rw [takeWhile_append_all htw, dropWhile_append_all htw]
          rw [if_neg (by
            simp only [List.isEmpty_eq_true, List.append_eq_nil]
            rintro ⟨h1, _⟩
            exact hemp (by simp [h1]))]
          rw [List.dropWhile_cons, if_neg (by simp [hx])]
          split
          · rename_i heq
            rw [List.cons.injEq] at heq
            exact absurd heq.1 hxdot'
          · rfl

theorem firstCand_cons_none {c : Char} {s : LC} (h : candAt (c :: s) = none) :
    firstCand (c :: s) = firstCand s := by
  show (match candAt (c :: s) with
    | some t => some t
    | none => firstCand s) = _
  rw [h]

theorem candBlocked_skip : ∀ {pre : LC} (rest : LC), candBlocked pre = true →
    firstCand (pre ++ rest) = firstCand rest := by
  intro pre
  induction pre with
  | nil => intro rest _; rfl
  | cons c pre' ih =>
    intro rest h
    simp only [candBlocked, Bool.and_eq_true] at h
    show firstCand (c :: (pre' ++ rest)) = _
    rw [firstCand_cons_none (by
      have := candAt_none_of_blocked h.1 rest
      simpa using this)]
    exact ih rest h.2

theorem flc_none_of_blocked {pat X : LC} (h : noLineStartIn pat X = true) :
    firstLineCapture pat X = none := by
  have := @flc_skip_concrete pat X [] h
  rw [List.append_nil] at this
  rw [this]
  rfl

theorem head_ne_helper {rest : LC} {r0 : Char} (h : rest.head? = some r0) {p1 : Char}
    (hne : r0 ≠ p1) : ∀ c, rest.head? = some c → c ≠ p1 := by
  intro c hc
  rw [h] at hc
  injection hc with h2
  subst h2
  exact hne

theorem digit_ne_eq {c : Char} (h : isDig c = true) : c ≠ '=' := by
  have := isDig_ranges h
  exact char_ne_of_toNat (by simp; omega)

theorem digit_not_lineTerm {c : Char} (h : isDig c = true) : isLineTerm c = false := by
  have := isDig_ranges h
  cases hw : isLineTerm c
  · rfl
  · have := isLineTerm_imp_toNat hw
    omega

/-- An SDP attribute line regrouped so the scan lemmas can peel it off:
the leading literal, then the payload, then the explicit CRLF. -/
theorem optline_shape (lit v rest : LC) :
    (lit ++ v ++ s2l "\r\n") ++ rest = lit ++ (v ++ '\r' :: ('\n' :: rest)) := by
  rw [show s2l "\r\n" = ['\r', '\n'] from rfl]
  simp

theorem flc_skip_cons2 {pat : LC} (c1 c2 : Char) (rest : LC)
    (h : noLineStartIn pat [c1, c2] = true) :
    firstLineCapture pat (c1 :: c2 :: rest) = firstLineCapture pat rest :=
  @flc_skip_concrete pat [c1, c2] rest h

/-- Extraction of the ice-ufrag capture from a rendered document with all
fields present. -/
theorem flc_ufrag_sdpOpt {ts : Nat} {u p f : LC} {typ : LC}
    (hu : u ≠ []) (hut : ∀ c ∈ u, isLineTerm c = false) :
    firstLineCapture iceUfragPat (minimalSdpOpt ts (some u) (some p) (some f) typ) = some u := by
  rw [show iceUfragPat = 'a' :: '=' :: s2l "ice-ufrag:" from rfl]
  simp only [minimalSdpOpt, optLine]
  rw [flc_skip_concrete _ (by decide),
    flc_skip_seg (fun c hc => digit_ne_eq (natToStr_digits ts c hc))
      (head_ne_helper (by rfl) (by decide)),
    flc_skip_concrete _ (by decide),
    optline_shape,
    show s2l "a=ice-ufrag:" = 'a' :: '=' :: s2l "ice-ufrag:" from rfl]
  exact flc_hit (by simp) hu hut

/-- Extraction of the ice-pwd capture from a rendered document with all
fields present. -/
theorem flc_pwd_sdpOpt {ts : Nat} {u p f : LC} {typ : LC}
    (hue : ∀ c ∈ u, c ≠ '=') (hp : p ≠ []) (hpt : ∀ c ∈ p, isLineTerm c = false) :
    firstLineCapture icePwdPat (minimalSdpOpt ts (some u) (some p) (some f) typ) = some p := by
  rw [show icePwdPat = 'a' :: '=' :: s2l "ice-pwd:" from rfl]
  simp only [minimalSdpOpt, optLine]
  rw [flc_skip_concrete _ (by decide),
    flc_skip_seg (fun c hc => digit_ne_eq (natToStr_digits ts c hc))
      (head_ne_helper (by rfl) (by decide)),
    flc_skip_concrete _ (by decide),
    optline_shape,
    flc_skip_concrete _ (by decide),
    flc_skip_seg hue (head_ne_helper (by rfl) (by decide)),
    flc_skip_cons2 '\r' '\n' _ (by decide),
    optline_shape,
    show s2l "a=ice-pwd:" = 'a' :: '=' :: s2l "ice-pwd:" from rfl]
  exact flc_hit (by simp) hp hpt

/-- Skip one optional credential line whose payload carries no equals sign,
for a pattern whose second character is the equals sign. -/
theorem flc_skip_optline {p0 : Char} {pr : LC} {x? : Option LC} {lit rest : LC}
    (hx : ∀ s, x? = some s → ∀ c ∈ s, c ≠ '=')
    (hlit : noLineStartIn (p0 :: '=' :: pr) lit = true)
    (hcr : noLineStartIn (p0 :: '=' :: pr) ['\r', '\n'] = true) :
    firstLineCapture (p0 :: '=' :: pr) (optLine lit x? ++ rest) =
      firstLineCapture (p0 :: '=' :: pr) rest := by
  rcases x? with _ | v
  · rfl
  · show firstLineCapture (p0 :: '=' :: pr) ((lit ++ v ++ s2l "\r\n") ++ rest) = _
    rw [optline_shape, flc_skip_concrete _ hlit,
      flc_skip_seg (hx v rfl) (head_ne_helper (by rfl) (by decide)),
      flc_skip_cons2 '\r' '\n' _ hcr]

theorem optLine_none (lit : LC) : optLine lit none = [] := rfl

/-- A missing ufrag field yields no ice-ufrag capture, provided the other
payloads carry no equals sign. -/
theorem flc_ufrag_none {ts : Nat} {p? f? : Option LC} {typ : LC}
    (hp : ∀ s, p? = some s → ∀ c ∈ s, c ≠ '=')
    (hf : ∀ s, f? = some s → ∀ c ∈ s, c ≠ '=') :
    firstLineCapture iceUfragPat (minimalSdpOpt ts none p? f? typ) = none := by
  rw [show iceUfragPat = 'a' :: '=' :: s2l "ice-ufrag:" from rfl]
  simp only [minimalSdpOpt, optLine_none, List.nil_append]
  rw [flc_skip_concrete _ (by decide),
    flc_skip_seg (fun c hc => digit_ne_eq (natToStr_digits ts c hc))
      (head_ne_helper (by rfl) (by decide)),
    flc_skip_concrete _ (by decide),
    flc_skip_optline hp (by decide) (by decide),
    flc_skip_concrete _ (by decide),
    flc_skip_optline hf (by decide) (by decide)]
  by_cases htyp : typ = s2l "offer"
  · rw [if_pos htyp]
    exact flc_none_of_blocked (by decide)
  · rw [if_neg htyp]
    exact flc_none_of_blocked (by decide)

/-- A missing pwd field yields no ice-pwd capture, provided the other
payloads carry no equals sign. -/
theorem flc_pwd_none {ts : Nat} {u? f? : Option LC} {typ : LC}
    (hu : ∀ s, u? = some s → ∀ c ∈ s, c ≠ '=')
    (hf : ∀ s, f? = some s → ∀ c ∈ s, c ≠ '=') :
    firstLineCapture icePwdPat (minimalSdpOpt ts u? none f? typ) = none := by
  rw [show icePwdPat = 'a' :: '=' :: s2l "ice-pwd:" from rfl]
  simp only [minimalSdpOpt, optLine_none, List.nil_append]
  rw [flc_skip_concrete _ (by decide),
    flc_skip_seg (fun c hc => digit_ne_eq (natToStr_digits ts c hc))
      (head_ne_helper (by rfl) (by decide)),
    flc_skip_concrete _ (by decide),
    flc_skip_optline hu (by decide) (by decide),
    flc_skip_concrete _ (by decide),
    flc_skip_optline hf (by decide) (by decide)]
  by_cases htyp : typ = s2l "offer"
  · rw [if_pos htyp]
    exact flc_none_of_blocked (by decide)
  · rw [if_neg htyp]
    exact flc_none_of_blocked (by decide)

/-- A missing fingerprint field yields no fingerprint capture, provided the
other payloads carry no equals sign. -/
theorem flc_fp_none {ts : Nat} {u? p? : Option LC} {typ : LC}
    (hu : ∀ s, u? = some s → ∀ c ∈ s, c ≠ '=')
    (hp : ∀ s, p? = some s → ∀ c ∈ s, c ≠ '=') :
    firstLineCapture fingerprintPat (minimalSdpOpt ts u? p? none typ) = none := by
  rw [show fingerprintPat = 'a' :: '=' :: s2l "fingerprint:sha-256 " from rfl]
  simp only [minimalSdpOpt, optLine_none, List.nil_append]
  rw [flc_skip_concrete _ (by decide),
    flc_skip_seg (fun c hc => digit_ne_eq (natToStr_digits ts c hc))
      (head_ne_helper (by rfl) (by decide)),
    flc_skip_concrete _ (by decide),
    flc_skip_optline hu (by decide) (by decide),
    flc_skip_optline hp (by decide) (by decide),
    flc_skip_concrete _ (by decide)]
  by_cases htyp : typ = s2l "offer"
  · rw [if_pos htyp]
    exact flc_none_of_blocked (by decide)
  · rw [if_neg htyp]
    exact flc_none_of_blocked (by decide)

/-- Extraction of the fingerprint capture from a rendered document with all
fields present. -/
theorem flc_fp_sdpOpt {ts : Nat} {u p f : LC} {typ : LC}
    (hue : ∀ c ∈ u, c ≠ '=') (hpe : ∀ c ∈ p, c ≠ '=')
    (hf : f ≠ []) (hft : ∀ c ∈ f, isLineTerm c = false) :
    firstLineCapture fingerprintPat (minimalSdpOpt ts (some u) (some p) (some f) typ) = some f := by
  rw [show fingerprintPat = 'a' :: '=' :: s2l "fingerprint:sha-256 " from rfl]
  simp only [minimalSdpOpt, optLine]
  rw [flc_skip_concrete _ (by decide),
    flc_skip_seg (fun c hc => digit_ne_eq (natToStr_digits ts c hc))
      (head_ne_helper (by rfl) (by decide)),
    flc_skip_concrete _ (by decide),
    optline_shape,
    flc_skip_concrete _ (by decide),
    flc_skip_seg hue (head_ne_helper (by rfl) (by decide)),
    flc_skip_cons2 '\r' '\n' _ (by decide),
    optline_shape,
    flc_skip_concrete _ (by decide),
    flc_skip_seg hpe (head_ne_helper (by rfl) (by decide)),
    flc_skip_cons2 '\r' '\n' _ (by decide),
    flc_skip_concrete _ (by decide),
    optline_shape,
    show s2l "a=fingerprint:sha-256 " = 'a' :: '=' :: s2l "fingerprint:sha-256 " from rfl]
  exact flc_hit (by simp) hf hft

theorem takeWhile_stop {p : Char → Bool} {ds : LC} (hd : ∀ c ∈ ds, p c) {x : Char}
    (hx : p x = false) (X : LC) : (ds ++ x :: X).takeWhile p = ds := by
  rw [takeWhile_append_all hd, List.takeWhile_cons, hx]
  simp

theorem dropWhile_stop {p : Char → Bool} {ds : LC} (hd : ∀ c ∈ ds, p c) {x : Char}
    (hx : p x = false) (X : LC) : (ds ++ x :: X).dropWhile p = x :: X := by
  rw [dropWhile_append_all hd, List.dropWhile_cons, hx]
  simp

/-- The candidate regex matched at the start of a well-shaped candidate
body: four digit runs dotted, a digit port, and a word kind. -/
theorem candAt_render {A B C D P W : LC}
    (hA : A ≠ []) (hAd : ∀ c ∈ A, isDig c)
    (hB : B ≠ []) (hBd : ∀ c ∈ B, isDig c)
    (hC : C ≠ []) (hCd : ∀ c ∈ C, isDig c)
    (hD : D ≠ []) (hDd : ∀ c ∈ D, isDig c)
    (hP : P ≠ []) (hPd : ∀ c ∈ P, isDig c)
    (hW : W ≠ []) (hWw : ∀ c ∈ W, isWordChar c) :
    candAt (A ++ '.' :: (B ++ '.' :: (C ++ '.' :: (D ++ ' ' :: (P ++ ' ' ::
        ('t' :: 'y' :: 'p' :: ' ' :: W)))))) =
      some (A ++ '.' :: B ++ '.' :: C ++ '.' :: D, P, W) := by
  simp only [candAt]
  rw [takeWhile_stop hAd (by decide), dropWhile_stop hAd (by decide)]
  simp only [List.isEmpty_eq_true, hA, if_false]
  rw [takeWhile_stop hBd (by decide), dropWhile_stop hBd (by decide)]
  simp only [List.isEmpty_eq_true, hB, if_false]
  rw [takeWhile_stop hCd (by decide), dropWhile_stop hCd (by decide)]
  simp only [List.isEmpty_eq_true, hC, if_false]
  rw [takeWhile_stop hDd (by decide), dropWhile_stop hDd (by decide)]
  simp only [List.isEmpty_eq_true, hD, if_false]
  rw [takeWhile_stop hPd (by decide), dropWhile_stop hPd (by decide)]
  simp only [List.isEmpty_eq_true, hP, if_false]
  rw [takeWhile_all hWw]
  simp [List.isEmpty_eq_true, hW]

theorem firstCand_of_candAt {s : LC} (hne : s ≠ []) {t : LC × LC × LC}
    (h : candAt s = some t) : firstCand s = some t := by
  cases s with
  | nil => exact (hne rfl).elim
  | cons c s =>
    simp only [firstCand, h]

theorem kindWord_ne_nil (k : PathKind) : kindWord k ≠ [] := by
  cases k <;> decide

theorem kindWord_word (k : PathKind) : ∀ c ∈ kindWord k, isWordChar c := by
  cases k <;> decide

/-- The candidate regex on an engine-rendered candidate line finds the
dotted address, the port digits and the kind word. -/
theorem firstCand_renderPathCand (p : NPath) :
    firstCand (renderPathCand p) = some (ipDotted p, natToStr p.port, kindWord p.kind) := by
  have hshape : renderPathCand p = s2l "candidate:0 1 udp 2122260223 " ++
      (natToStr p.o1 ++ '.' :: (natToStr p.o2 ++ '.' :: (natToStr p.o3 ++ '.' ::
      (natToStr p.o4 ++ ' ' :: (natToStr p.port ++ ' ' ::
      ('t' :: 'y' :: 'p' :: ' ' :: kindWord p.kind)))))) := by
    rw [renderPathCand, ipDotted, show s2l " typ " = [' ', 't', 'y', 'p', ' '] from rfl]
    simp
  rw [hshape, candBlocked_skip _ (by decide)]
  refine firstCand_of_candAt (by simp [natToStr_ne_nil]) ?_
  have hren := candAt_render (natToStr_ne_nil p.o1) (natToStr_digits p.o1)
    (natToStr_ne_nil p.o2) (natToStr_digits p.o2)
    (natToStr_ne_nil p.o3) (natToStr_digits p.o3)
    (natToStr_ne_nil p.o4) (natToStr_digits p.o4)
    (natToStr_ne_nil p.port) (natToStr_digits p.port)
    (kindWord_ne_nil p.kind) (kindWord_word p.kind)
  rw [hren, ipDotted]

/-! ### Split and join -/

theorem jsSplit_sep_append {c : Char} {x : LC} (hx : ∀ a ∈ x, a ≠ c) (rest : LC) :
    jsSplit c (x ++ c :: rest) = x :: jsSplit c rest := by
  induction x with
  | nil => simp [jsSplit]
  | cons a as ih =>
    have ha := hx a (by simp)
    have ih2 := ih (fun b hb => hx b (by simp [hb]))
    simp only [List.cons_append, jsSplit, if_neg ha]
    rw [show (as.append (c :: rest) : LC) = as ++ c :: rest from rfl, ih2]

theorem jsSplit_no_sep {c : Char} : ∀ {x : LC}, (∀ a ∈ x, a ≠ c) → jsSplit c x = [x] := by
  intro x
  induction x with
  | nil => intro _; rfl
  | cons a as ih =>
    intro hx
    have ha := hx a (by simp)
    simp only [jsSplit, if_neg ha, ih (fun b hb => hx b (by simp [hb]))]

theorem jsSplit_joinSep {c : Char} : ∀ {ps : List LC}, ps ≠ [] →
    (∀ p ∈ ps, ∀ a ∈ p, a ≠ c) → jsSplit c (joinSep [c] ps) = ps := by
  intro ps
  induction ps with
  | nil => intro h; exact (h rfl).elim
  | cons p ps ih =>
    intro _ hps
    cases ps with
    | nil => exact jsSplit_no_sep (hps p (by simp))
    | cons q qs =>
      have hshape : joinSep [c] (p :: q :: qs) = p ++ c :: joinSep [c] (q :: qs) := by
        simp [joinSep]
      rw [hshape, jsSplit_sep_append (hps p (by simp)),
        ih (by simp) (fun r hr a ha => hps r (by simp [hr]) a ha)]

theorem mem_joinSep {c : Char} {sep : LC} : ∀ {ps : List LC}, c ∈ joinSep sep ps →
    (∃ p ∈ ps, c ∈ p) ∨ c ∈ sep := by
  intro ps
  induction ps with
  | nil => intro h; exact absurd h (by simp [joinSep])
  | cons p qs ih =>
    intro h
    cases qs with
    | nil =>
      simp only [joinSep] at h
      exact Or.inl ⟨p, by simp, h⟩
    | cons q rs =>
      simp only [joinSep, List.append_assoc, List.mem_append] at h
      rcases h with h | h | h
      · exact Or.inl ⟨p, by simp, h⟩
      · exact Or.inr h
      · rcases ih h with ⟨r, hr, hc⟩ | h
        · exact Or.inl ⟨r, by simp [hr], hc⟩
        · exact Or.inr h

/-! ### Fingerprint hex round trip -/

theorem jsParseIntHex_jsHexByte {b : Nat} (hb : b < 256) :
    jsParseIntHex (jsHexByte b) = some b := by
  have H : (List.range 256).all (fun b => jsParseIntHex (jsHexByte b) == some b) = true := by
    decide
  rw [List.all_eq_true] at H
  simpa using H b (List.mem_range.mpr hb)

theorem fpHexStr_chars {bs : List Nat} (h : ∀ b ∈ bs, b < 256) :
    ∀ c ∈ fpHexStr bs, isHexUp c = true ∨ c = ':' := by
  intro c hc
  rcases mem_joinSep hc with ⟨p, hp, hcp⟩ | hcs
  · rcases List.mem_map.mp hp with ⟨b, hb, rfl⟩
    exact Or.inl (jsHexByte_chars (h b hb) c hcp)
  · right
    rw [show s2l ":" = [':'] from rfl] at hcs
    simpa using hcs

theorem jsHexByte_no_colon {b : Nat} (hb : b < 256) : ∀ a ∈ jsHexByte b, a ≠ ':' := by
  intro a ha
  have := isHexUp_ranges (jsHexByte_chars hb a ha)
  exact char_ne_of_toNat (by simp; omega)

theorem fp_split_parse {bs : List Nat} (hne : bs ≠ []) (h : ∀ b ∈ bs, b < 256) :
    (jsSplit ':' (fpHexStr bs)).map (fun h => ((jsParseIntHex h).getD 0) % 65536) = bs := by
  have hsplit : jsSplit ':' (fpHexStr bs) = bs.map jsHexByte := by
    rw [show fpHexStr bs = joinSep [':'] (bs.map jsHexByte) from rfl]
    refine jsSplit_joinSep (by simpa using hne) ?_
    intro p hp a ha
    rcases List.mem_map.mp hp with ⟨b, hb, rfl⟩
    exact jsHexByte_no_colon (h b hb) a ha
  rw [hsplit, List.map_map]
  have : ∀ b ∈ bs, (fun h => ((jsParseIntHex h).getD 0) % 65536) (jsHexByte b) = b := by
    intro b hb
    have hb256 := h b hb
    simp only [jsParseIntHex_jsHexByte hb256, Option.getD_some]
    omega
  calc bs.map ((fun h => ((jsParseIntHex h).getD 0) % 65536) ∘ jsHexByte)
      = bs.map id := List.map_congr_left (fun b hb => this b hb)
    _ = bs := List.map_id bs

/-! ### Dotted address split -/

theorem digit_ne_dot {c : Char} (h : isDig c = true) : c ≠ '.' := by
  have := isDig_ranges h
  exact char_ne_of_toNat (by simp; omega)

theorem jsSplit_ipDotted (p : NPath) :
    jsSplit '.' (ipDotted p) =
      [natToStr p.o1, natToStr p.o2, natToStr p.o3, natToStr p.o4] := by
  have hshape : ipDotted p = natToStr p.o1 ++ '.' :: (natToStr p.o2 ++ '.' ::
      (natToStr p.o3 ++ '.' :: natToStr p.o4)) := by
    rw [ipDotted]
    simp
  rw [hshape,
    jsSplit_sep_append (fun a ha => digit_ne_dot (natToStr_digits _ a ha)),
    jsSplit_sep_append (fun a ha => digit_ne_dot (natToStr_digits _ a ha)),
    jsSplit_sep_append (fun a ha => digit_ne_dot (natToStr_digits _ a ha)),
    jsSplit_no_sep (fun a ha => digit_ne_dot (natToStr_digits _ a ha))]

theorem tripleOcts_path (p : NPath) :
    tripleOcts (pathTriple p) = [p.o1, p.o2, p.o3, p.o4] := by
  simp only [tripleOcts, pathTriple, jsSplit_ipDotted, List.map_cons, List.map_nil,
    digitsToNat_natToStr]

theorem triplePort_path (p : NPath) : triplePort (pathTriple p) = p.port := by
  simp only [triplePort, pathTriple, digitsToNat_natToStr]

/-! ### Shape of captured triples -/

theorem candAt_shape {s : LC} {t : LC × LC × LC} (h : candAt s = some t) :
    tripleShaped t := by
  simp only [candAt] at h
  split at h
  · exact absurd h (by simp)
  rename_i hne1
  split at h
  rotate_left
  · exact absurd h (by simp)
  rename_i t1 heq1
  split at h
  · exact absurd h (by simp)
  rename_i hne2
  split at h
  rotate_left
  · exact absurd h (by simp)
  rename_i t2 heq2
  split at h
  · exact absurd h (by simp)
  rename_i hne3
  split at h
  rotate_left
  · exact absurd h (by simp)
  rename_i t3 heq3
  split at h
  · exact absurd h (by simp)
  rename_i hne4
  split at h
  rotate_left
  · exact absurd h (by simp)
  rename_i t4 heq4
  split at h
  · exact absurd h (by simp)
  rename_i hne5
  split at h
  rotate_left
  · exact absurd h (by simp)
  rename_i t5 heq5
  split at h
  · exact absurd h (by simp)
  rename_i hne6
  injection h with h2
  subst h2
  refine ⟨s.takeWhile isDig, t1.takeWhile isDig, t2.takeWhile isDig, t3.takeWhile isDig,
    rfl, ?_, ?_, ?_, ?_, ?_, ?_, ?_, ?_, ?_, ?_, ?_⟩
  · simpa [List.isEmpty_eq_true] using hne1
  · simpa [List.isEmpty_eq_true] using hne2
  · simpa [List.isEmpty_eq_true] using hne3
  · simpa [List.isEmpty_eq_true] using hne4
  · exact fun c hc => List.mem_takeWhile_imp hc
  · exact fun c hc => List.mem_takeWhile_imp hc
  · exact fun c hc => List.mem_takeWhile_imp hc
  · exact fun c hc => List.mem_takeWhile_imp hc
  · exact fun c hc => List.mem_takeWhile_imp hc
  · simpa [List.isEmpty_eq_true] using hne6
  · exact fun c hc => List.mem_takeWhile_imp hc

theorem firstCand_shape : ∀ {s : LC} {t : LC × LC × LC}, firstCand s = some t →
    tripleShaped t := by
  intro s
  induction s with
  | nil => intro t h; exact absurd h (by simp [firstCand])
  | cons c s ih =>
    intro t h
    simp only [firstCand] at h
    rcases hc : candAt (c :: s) with _ | t'
    · rw [hc] at h
      exact ih h
    · rw [hc] at h
      injection h with h2
      subst h2
      exact candAt_shape hc

theorem parsedTriples_shape {entries : List (Option LC)} {t : LC × LC × LC}
    (h : t ∈ parsedTriples entries) : tripleShaped t := by
  rcases List.mem_filterMap.mp h with ⟨e, _, he⟩
  rcases e with _ | s
  · exact absurd he (by simp)
  · simp only at he
    by_cases hs : s.isEmpty
    · rw [if_pos hs] at he
      exact absurd he (by simp)
    · rw [if_neg hs] at he
      exact firstCand_shape he

theorem tripleShaped_split {t : LC × LC × LC} (h : tripleShaped t) :
    ∃ d1 d2 d3 d4 : LC, jsSplit '.' t.1 = [d1, d2, d3, d4] ∧
      tripleOcts t = [digitsToNat d1, digitsToNat d2, digitsToNat d3, digitsToNat d4] := by
  rcases h with ⟨d1, d2, d3, d4, ht, _, _, _, _, hd1, hd2, hd3, hd4, _⟩
  have hsp : jsSplit '.' t.1 = [d1, d2, d3, d4] := by
    have hshape : t.1 = d1 ++ '.' :: (d2 ++ '.' :: (d3 ++ '.' :: d4)) := by
      rw [ht]; simp
    rw [hshape,
      jsSplit_sep_append (fun a ha => digit_ne_dot (hd1 a ha)),
      jsSplit_sep_append (fun a ha => digit_ne_dot (hd2 a ha)),
      jsSplit_sep_append (fun a ha => digit_ne_dot (hd3 a ha)),
      jsSplit_no_sep (fun a ha => digit_ne_dot (hd4 a ha))]
  exact ⟨d1, d2, d3, d4, hsp, by simp [tripleOcts, hsp]⟩

theorem tripleShaped_kindChar {t : LC × LC × LC} (h : tripleShaped t) :
    isWordChar (tripleKindChar t) := by
  rcases h with ⟨_, _, _, _, _, _, _, _, _, _, _, _, _, _, hwne, hw⟩
  rcases hk : t.2.2 with _ | ⟨c, cs⟩
  · exact absurd hk hwne
  · have : tripleKindChar t = c := by simp [tripleKindChar, hk]
    rw [this]
    exact hw c (by simp [hk])

theorem wordChar_facts {c : Char} (h : isWordChar c = true) :
    c ≠ ':' ∧ c.toNat < 256 ∧ (c ≠ '"' ∧ c ≠ '\\' ∧ 32 ≤ c.toNat) := by
  have hr : (48 ≤ c.toNat ∧ c.toNat ≤ 57) ∨ (65 ≤ c.toNat ∧ c.toNat ≤ 90) ∨
      (97 ≤ c.toNat ∧ c.toNat ≤ 122) ∨ c.toNat = 95 := by
    simp only [isWordChar, isDig, Bool.or_eq_true, Bool.and_eq_true,
      decide_eq_true_eq] at h
    rcases h with ((h | h) | h) | h
    · left; omega
    · right; left; omega
    · right; right; left; omega
    · subst h; right; right; right; decide
  refine ⟨char_ne_of_toNat (by simp; omega), by omega,
    char_ne_of_toNat (by simp; omega), char_ne_of_toNat (by simp; omega), by omega⟩

/-! ### Round trip of one candidate triple -/

theorem triple_bytes_lt {t : LC × LC × LC} (hwf : wfTriple t) :
    ∀ b ∈ tripleOcts t ++ [triplePort t / 256 % 256, triplePort t % 256], b < 256 := by
  intro b hb
  rcases List.mem_append.mp hb with hb | hb
  · exact hwf.1 b hb
  · simp only [List.mem_cons, List.mem_singleton] at hb
    rcases hb with rfl | rfl | h
    · omega
    · omega
    · exact absurd h (by simp)

theorem encodeEntry_some {s : LC} {t : LC × LC × LC} (hfc : firstCand s = some t)
    (hwf : wfTriple t) : encodeEntry s = .ok (some (encTriple t)) := by
  have hball := triple_bytes_lt hwf
  obtain ⟨ip, pt, ty⟩ := t
  unfold encodeEntry
  rw [hfc]
  simp only []
  rw [jsBtoa, if_pos (by
    rw [List.all_eq_true]
    intro x hx
    simpa using hball x (by simpa [tripleOcts, triplePort] using hx))]
  rfl

theorem encodeEntry_none {s : LC} (h : firstCand s = none) :
    encodeEntry s = .ok none := by
  unfold encodeEntry
  rw [h]
  rfl

theorem mapM_encodeEntry : ∀ {pass : List LC},
    (∀ t, (∃ s ∈ pass, firstCand s = some t) → wfTriple t) →
    pass.mapM encodeEntry = .ok (pass.map (fun s => (firstCand s).map encTriple)) := by
  intro pass
  induction pass with
  | nil => intro _; rfl
  | cons s ss ih =>
    intro hwf
    have hss := ih (fun t ht => hwf t (by
      rcases ht with ⟨s', hs', hfc⟩
      exact ⟨s', by simp [hs'], hfc⟩))
    rw [List.mapM_cons]
    rcases hfc : firstCand s with _ | t
    · rw [encodeEntry_none hfc]
      simp only [hss, List.map_cons, hfc]
      rfl
    · rw [encodeEntry_some hfc (hwf t ⟨s, by simp, hfc⟩)]
      simp only [hss, List.map_cons, hfc]
      rfl

theorem filterMap_id_mapenc : ∀ l : List LC,
    (l.map (fun s => (firstCand s).map encTriple)).filterMap id =
      (l.filterMap firstCand).map encTriple := by
  intro l
  induction l with
  | nil => rfl
  | cons s ss ih =>
    simp only [List.map_cons, List.filterMap_cons]
    rcases hfc : firstCand s with _ | t <;> simp [hfc, ih]

theorem pass_filterMap : ∀ entries : List (Option LC),
    ((entries.filterMap id).filter (fun s => !s.isEmpty)).filterMap firstCand =
      parsedTriples entries := by
  intro entries
  induction entries with
  | nil => rfl
  | cons e es ih =>
    rcases e with _ | s
    · simpa [parsedTriples, List.filterMap_cons] using ih
    · rw [parsedTriples] at ih ⊢
      have h1 : List.filterMap id (some s :: es) = s :: List.filterMap id es := by simp
      by_cases hs : s.isEmpty
      · have hsnil : s = [] := by simpa [List.isEmpty_eq_true] using hs
        rw [h1, List.filter_cons, if_neg (by simp [hs])]
        simpa [List.filterMap_cons, hsnil] using ih
      · have hs' : (!s.isEmpty) = true := by simp [hs]
        have hs0 : s ≠ [] := by simpa [List.isEmpty_eq_true] using hs
        rw [h1, List.filter_cons, if_pos hs', List.filterMap_cons]
        rcases hfc : firstCand s with _ | t <;>
          simp [List.filterMap_cons, hfc, hs0, ih]

theorem bind_ok_elim {α β : Type} (x : α) (f : α → Except String β) :
    (Except.ok x >>= f) = f x := rfl

theorem btoaCore_no_colon (bs : List Nat) : ∀ a ∈ btoaCore bs, a ≠ ':' := by
  intro a ha
  rcases btoaCore_chars bs a ha with h | h
  · exact (b64Alphabet_facts a h).2.2.1
  · subst h; decide

theorem decompressCandidate_enc {t : LC × LC × LC} (hsh : tripleShaped t)
    (hwf : wfTriple t) (idx : Nat) :
    decompressCandidate idx (.jstr (encTriple t)) = .ok (expectedCandOfTriple idx t) := by
  obtain ⟨d1, d2, d3, d4, _, hocts⟩ := tripleShaped_split hsh
  have hk : tripleKindChar t ≠ ':' := (wordChar_facts (tripleShaped_kindChar hsh)).1
  have hball := triple_bytes_lt hwf
  have hsplit : jsSplit ':' (encTriple t) =
      [btoaCore (tripleOcts t ++ [triplePort t / 256 % 256, triplePort t % 256]),
       [tripleKindChar t]] := by
    rw [encTriple, jsSplit_sep_append (btoaCore_no_colon _),
      jsSplit_no_sep (by
        intro a ha
        simp only [List.mem_singleton] at ha
        subst ha
        exact hk)]
  have hatob : jsAtob (btoaCore (tripleOcts t ++
      [triplePort t / 256 % 256, triplePort t % 256])) =
      .ok (tripleOcts t ++ [triplePort t / 256 % 256, triplePort t % 256]) :=
    jsAtob_jsBtoa (by
      rw [jsBtoa, if_pos (by
        rw [List.all_eq_true]
        intro x hx
        simpa using hball x hx)])
  unfold decompressCandidate
  simp only [hsplit, List.headD, List.get?]
  rw [hocts] at hatob ⊢
  have hport : triplePort t / 256 % 256 * 256 + triplePort t % 256 = triplePort t := by
    have := hwf.2
    omega
  simp only [List.cons_append, List.nil_append] at hatob
  simp only [List.cons_append, List.nil_append, hatob, bind_ok_elim]
  rw [show List.take 4 (digitsToNat d1 :: digitsToNat d2 :: digitsToNat d3 ::
      digitsToNat d4 :: (triplePort t / 256 % 256) :: (triplePort t % 256) ::
      ([] : List Nat)) = [digitsToNat d1, digitsToNat d2, digitsToNat d3, digitsToNat d4]
      from rfl,
    show List.getD (digitsToNat d1 :: digitsToNat d2 :: digitsToNat d3 ::
      digitsToNat d4 :: (triplePort t / 256 % 256) :: (triplePort t % 256) ::
      ([] : List Nat)) 4 0 = triplePort t / 256 % 256 from rfl,
    show List.getD (digitsToNat d1 :: digitsToNat d2 :: digitsToNat d3 ::
      digitsToNat d4 :: (triplePort t / 256 % 256) :: (triplePort t % 256) ::
      ([] : List Nat)) 5 0 = triplePort t % 256 from rfl,
    hport]
  simp [expectedCandOfTriple, hocts]
  rfl

theorem mapIdxMAux_enc : ∀ {ts : List (LC × LC × LC)},
    (∀ t ∈ ts, tripleShaped t ∧ wfTriple t) → ∀ idx : Nat,
    mapIdxMAux decompressCandidate idx (ts.map (fun t => JVal.jstr (encTriple t))) =
      .ok (mapWithIdx expectedCandOfTriple idx ts) := by
  intro ts
  induction ts with
  | nil => intro _ _; rfl
  | cons t ts ih =>
    intro h idx
    obtain ⟨hsh, hwf⟩ := h t (by simp)
    simp only [List.map_cons, mapIdxMAux, decompressCandidate_enc hsh hwf idx,
      ih (fun u hu => h u (by simp [hu])) (idx + 1)]
    rfl

/-! ### Printed record character bounds and plainness -/

theorem escChar_chars {c : Char} (hc : c.toNat < 256) : ∀ x ∈ escChar c, x.toNat < 256 := by
  have H : (List.range 256).all
      (fun n => (escChar (Char.ofNat n)).all (fun x => decide (x.toNat < 256))) = true := by
    decide
  rw [List.all_eq_true] at H
  have h2 := H c.toNat (List.mem_range.mpr hc)
  rw [Char.ofNat_toNat] at h2
  rw [List.all_eq_true] at h2
  intro x hx
  simpa using h2 x hx

theorem printString_chars {s : LC} (hs : ∀ c ∈ s, c.toNat < 256) :
    ∀ c ∈ printString s, c.toNat < 256 := by
  intro c hc
  unfold printString at hc
  simp only [List.mem_cons, List.mem_append, List.mem_singleton, List.not_mem_nil, or_false, or_assoc] at hc
  rcases hc with rfl | hc | rfl
  · decide
  · rcases List.mem_flatMap.mp hc with ⟨a, ha, hxa⟩
    exact escChar_chars (hs a ha) c hxa
  · decide

theorem printElems_strs_chars : ∀ {ss : List LC}, (∀ s ∈ ss, ∀ c ∈ s, c.toNat < 256) →
    ∀ c ∈ printElems (ss.map .jstr), c.toNat < 256 := by
  intro ss
  induction ss with
  | nil => intro _ c hc; exact absurd hc (by simp [printElems])
  | cons s rest ih =>
    intro h c hc
    cases rest with
    | nil =>
      simp only [List.map_cons, List.map_nil, printElems, printJson] at hc
      exact printString_chars (h s (by simp)) c hc
    | cons s2 rest2 =>
      simp only [List.map_cons, printElems, printJson] at hc
      rw [List.mem_append] at hc
      rcases hc with hc | hc
      · exact printString_chars (h s (by simp)) c hc
      · rcases List.mem_cons.mp hc with rfl | hc
        · decide
        · exact ih (fun x hx => h x (by simp [hx])) c (by simpa using hc)

theorem printMembers_chars : ∀ {kvs : List (LC × JVal)},
    (∀ kv ∈ kvs, (∀ c ∈ kv.1, c.toNat < 256) ∧ ∀ c ∈ printJson kv.2, c.toNat < 256) →
    ∀ c ∈ printMembers kvs, c.toNat < 256 := by
  intro kvs
  induction kvs with
  | nil => intro _ c hc; exact absurd hc (by simp [printMembers])
  | cons kv rest ih =>
    intro h c hc
    obtain ⟨k, v⟩ := kv
    have hk := (h (k, v) (by simp)).1
    have hv := (h (k, v) (by simp)).2
    cases rest with
    | nil =>
      simp only [printMembers, List.mem_append, List.mem_cons, or_assoc] at hc
      rcases hc with hc | rfl | hc
      · exact printString_chars hk c hc
      · decide
      · exact hv c hc
    | cons kv2 rest2 =>
      simp only [printMembers, List.mem_append, List.mem_cons, or_assoc] at hc
      rcases hc with hc | rfl | hc | rfl | hc
      · exact printString_chars hk c hc
      · decide
      · exact hv c hc
      · decide
      · exact ih (fun x hx => h x (by simp [hx])) c hc

theorem printJson_obj_chars {kvs : List (LC × JVal)}
    (h : ∀ kv ∈ kvs, (∀ c ∈ kv.1, c.toNat < 256) ∧ ∀ c ∈ printJson kv.2, c.toNat < 256) :
    ∀ c ∈ printJson (.jobj kvs), c.toNat < 256 := by
  intro c hc
  simp only [printJson, List.mem_cons, List.mem_append, List.mem_singleton, List.not_mem_nil, or_false, or_assoc] at hc
  rcases hc with rfl | hc | rfl
  · decide
  · exact printMembers_chars h c hc
  · decide

/-! ### The compressor on a rendered document -/

theorem padStart2_ne_nil (c : Char) (s : LC) : padStart2 c s ≠ [] := by
  unfold padStart2
  split
  · rename_i hl
    have : 1 ≤ 2 - s.length := by omega
    simp only [ne_eq, List.append_eq_nil, not_and]
    intro hrep
    have := congrArg List.length hrep
    simp at this
    omega
  · rename_i hl
    intro hnil
    rw [hnil] at hl
    simp at hl

theorem jsHexByte_ne_nil (b : Nat) : jsHexByte b ≠ [] := by
  unfold jsHexByte
  intro h
  have := congrArg List.length h
  simp only [List.length_map, List.length_nil] at this
  exact padStart2_ne_nil '0' (natToHex b) (List.length_eq_zero.mp this)

theorem fpHexStr_ne_nil {bs : List Nat} (h : bs ≠ []) : fpHexStr bs ≠ [] := by
  unfold fpHexStr
  cases bs with
  | nil => exact absurd rfl h
  | cons b rest =>
    cases rest with
    | nil => simpa [joinSep] using jsHexByte_ne_nil b
    | cons b2 rest2 =>
      intro hnil
      have hlen := congrArg List.length hnil
      simp only [List.map_cons, joinSep, List.length_append, List.length_nil,
        show (s2l ":").length = 1 from rfl] at hlen
      omega

theorem iceChar_plain {c : Char} (h : isIceChar c = true) :
    c ≠ '"' ∧ c ≠ '\\' ∧ 32 ≤ c.toNat := by
  have hr := iceChar_ranges h
  exact ⟨char_ne_of_toNat (by simp; omega), char_ne_of_toNat (by simp; omega), by omega⟩

theorem b64_plain_char {c : Char} (h : c ∈ b64Alphabet ∨ c = '=') :
    (c ≠ '"' ∧ c ≠ '\\' ∧ 32 ≤ c.toNat) ∧ c.toNat < 256 := by
  rcases h with h | rfl
  · revert c
    decide
  · decide

theorem encTriple_plain {t : LC × LC × LC} (hsh : tripleShaped t) :
    plainStr (encTriple t) ∧ ∀ c ∈ encTriple t, c.toNat < 256 := by
  have hk := wordChar_facts (tripleShaped_kindChar hsh)
  constructor
  · intro c hc
    rw [encTriple] at hc
    rcases List.mem_append.mp hc with hc | hc
    · exact (b64_plain_char (btoaCore_chars _ c hc)).1
    · rcases List.mem_cons.mp hc with rfl | hc
      · exact ⟨by decide, by decide, by decide⟩
      · rcases List.mem_singleton.mp hc with rfl
        exact hk.2.2
  · intro c hc
    rw [encTriple] at hc
    rcases List.mem_append.mp hc with hc | hc
    · exact (b64_plain_char (btoaCore_chars _ c hc)).2
    · rcases List.mem_cons.mp hc with rfl | hc
      · decide
      · rcases List.mem_singleton.mp hc with rfl
        exact hk.2.1

theorem take_map {α β : Type} (f : α → β) : ∀ (l : List α) (n : Nat),
    (l.map f).take n = (l.take n).map f := by
  intro l
  induction l with
  | nil => intro n; simp only [List.map_nil, List.take_nil]
  | cons x xs ih =>
    intro n
    cases n with
    | zero => simp only [List.take_zero, List.map_nil]
    | succ n =>
      simp only [List.map_cons, List.take_succ_cons, ih n]

/-- Every character of the printed record is a byte. -/
theorem compressedRecord_chars (d : NDoc) (entries : List (Option LC))
    (huice : ∀ c ∈ d.ufrag, isIceChar c = true)
    (hpice : ∀ c ∈ d.pwd, isIceChar c = true) :
    ∀ c ∈ printJson (compressedRecord d entries), c.toNat < 256 := by
  intro c hc
  refine printJson_obj_chars ?_ c hc
  intro kv hkv
  simp only [compressedRecord, List.mem_cons, List.not_mem_nil, or_false] at hkv
  rcases hkv with rfl | rfl | rfl | rfl | rfl
  · refine ⟨show ∀ c ∈ s2l "t", c.toNat < 256 by decide, ?_⟩
    show ∀ c ∈ printJson (JVal.jstr (if d.role = s2l "offer" then s2l "o" else s2l "a")),
      c.toNat < 256
    by_cases hr : d.role = s2l "offer"
    · rw [if_pos hr]; decide
    · rw [if_neg hr]; decide
  · exact ⟨show ∀ c ∈ s2l "u", c.toNat < 256 by decide, fun c hc =>
      printString_chars (fun x hx => by have := iceChar_ranges (huice x hx); omega) c hc⟩
  · exact ⟨show ∀ c ∈ s2l "p", c.toNat < 256 by decide, fun c hc =>
      printString_chars (fun x hx => by have := iceChar_ranges (hpice x hx); omega) c hc⟩
  · exact ⟨show ∀ c ∈ s2l "f", c.toNat < 256 by decide, fun c hc =>
      printString_chars (fun x hx => (b64_plain_char (btoaCore_chars _ x hx)).2) c hc⟩
  · refine ⟨show ∀ c ∈ s2l "c", c.toNat < 256 by decide, ?_⟩
    intro c hc
    simp only [printJson] at hc
    rcases List.mem_cons.mp hc with rfl | hc
    · decide
    · rcases List.mem_append.mp hc with hc | hc
      · refine printElems_strs_chars ?_ c hc
        intro s hsm x hx
        rcases List.mem_map.mp hsm with ⟨u, hum, rfl⟩
        exact (encTriple_plain (parsedTriples_shape (List.mem_of_mem_take hum))).2 x hx
      · rcases List.mem_singleton.mp hc with rfl
        decide

/-- The byte-wise base64 gate the final btoa applies to the printed record. -/
theorem compressedRecord_all (d : NDoc) (entries : List (Option LC))
    (huice : ∀ c ∈ d.ufrag, isIceChar c = true)
    (hpice : ∀ c ∈ d.pwd, isIceChar c = true) :
    ((printJson (compressedRecord d entries)).map Char.toNat).all (· < 256) = true := by
  rw [List.all_eq_true]
  intro x hx
  rcases List.mem_map.mp hx with ⟨c, hc, rfl⟩
  simpa using compressedRecord_chars d entries huice hpice c hc

/-- The compressor on a rendered well-formed document: success, with the
canonical token. -/
theorem compress_docSdp {d : NDoc} (hd : wfDoc d) {entries : List (Option LC)}
    (hwf : ∀ t ∈ parsedTriples entries, wfTriple t) (ts : Nat) :
    compressSignaling ⟨d.role, docSdp ts d⟩ entries = .ok (tokenOf d entries) := by
  obtain ⟨hrole, hune, huice, hpne, hpice, hfne, hflt⟩ := hd
  have hufacts := fun c hc => iceChar_facts (huice c hc)
  have hpfacts := fun c hc => iceChar_facts (hpice c hc)
  have hffacts := fun c hc => fpChar_facts (fpHexStr_chars hflt c hc)
  have hu := @flc_ufrag_sdpOpt ts d.ufrag d.pwd (fpHexStr d.fpBytes) d.role
    hune (fun c hc => (hufacts c hc).2.1)
  have hp := @flc_pwd_sdpOpt ts d.ufrag d.pwd (fpHexStr d.fpBytes) d.role
    (fun c hc => (hufacts c hc).2.2.1) hpne
    (fun c hc => (hpfacts c hc).2.1)
  have hf := @flc_fp_sdpOpt ts d.ufrag d.pwd (fpHexStr d.fpBytes) d.role
    (fun c hc => (hufacts c hc).2.2.1)
    (fun c hc => (hpfacts c hc).2.2.1) (fpHexStr_ne_nil hfne)
    (fun c hc => (hffacts c hc).2.1)
  have htu : jsTrim d.ufrag = d.ufrag := jsTrim_id (fun c hc => by
    simp [(hufacts c hc).1])
  have htp : jsTrim d.pwd = d.pwd := jsTrim_id (fun c hc => by
    simp [(hpfacts c hc).1])
  have htf : jsTrim (fpHexStr d.fpBytes) = fpHexStr d.fpBytes := jsTrim_id (fun c hc => by
    simp [(hffacts c hc).1])
  have hfp := fp_split_parse hfne hflt
  have hbtoa : jsBtoa d.fpBytes = .ok (btoaCore d.fpBytes) := by
    rw [jsBtoa, if_pos (by
      rw [List.all_eq_true]
      intro x hx
      simpa using hflt x hx)]
  have hmapM := @mapM_encodeEntry
    ((entries.filterMap id).filter (fun s => !s.isEmpty))
    (fun t ht => by
      rcases ht with ⟨s, hs, hfc⟩
      refine hwf t ?_
      rw [← pass_filterMap entries]
      exact List.mem_filterMap.mpr ⟨s, hs, hfc⟩)
  have hchars := compressedRecord_all d entries huice hpice
  simp only [compressSignaling, docSdp]
  rw [hu, hp, hf]
  simp only [htu, htp, htf, hfp, hbtoa, bind_ok_elim, hmapM, filterMap_id_mapenc,
    pass_filterMap, take_map]
  simp only [compressedRecord] at hchars
  rw [jsBtoa, if_pos hchars]
  rfl

/-! ### The decompressor on a canonical token -/

theorem decompress_tokenOf {d : NDoc} (hd : wfDoc d) {entries : List (Option LC)}
    (hwf : ∀ t ∈ parsedTriples entries, wfTriple t) (now : Nat) :
    decompressSignaling (tokenOf d entries) now =
      .ok ⟨⟨d.role, minimalSdp now d.ufrag d.pwd (fpHexStr d.fpBytes) d.role⟩,
        mapWithIdx expectedCandOfTriple 0 ((parsedTriples entries).take 5)⟩ := by
  obtain ⟨hrole, hune, huice, hpne, hpice, hfne, hflt⟩ := hd
  have hatok : jsAtob (tokenOf d entries) =
      .ok ((printJson (compressedRecord d entries)).map Char.toNat) :=
    jsAtob_jsBtoa (by
      rw [jsBtoa, if_pos (compressedRecord_all d entries huice hpice)]
      rfl)
  have hmap : ((printJson (compressedRecord d entries)).map Char.toNat).map Char.ofNat
      = printJson (compressedRecord d entries) := by
    rw [List.map_map]
    calc (printJson (compressedRecord d entries)).map (Char.ofNat ∘ Char.toNat)
        = (printJson (compressedRecord d entries)).map id :=
          List.map_congr_left (fun c _ => Char.ofNat_toNat c)
      _ = _ := List.map_id _
  have hparse : jsonParse (printJson (compressedRecord d entries)) =
      some (compressedRecord d entries) := by
    refine jsonParse_printJson_obj (by simp [compressedRecord]) ?_
    intro kv hkv
    simp only [compressedRecord, List.mem_cons, List.not_mem_nil, or_false] at hkv
    rcases hkv with rfl | rfl | rfl | rfl | rfl
    · refine ⟨show plainStr (s2l "t") by unfold plainStr; decide, ?_⟩
      show isFlatVal (.jstr (if d.role = s2l "offer" then s2l "o" else s2l "a"))
      by_cases hr : d.role = s2l "offer"
      · rw [if_pos hr]
        exact (by unfold plainStr; decide : plainStr (s2l "o"))
      · rw [if_neg hr]
        exact (by unfold plainStr; decide : plainStr (s2l "a"))
    · exact ⟨show plainStr (s2l "u") by unfold plainStr; decide, fun c hc => iceChar_plain (huice c hc)⟩
    · exact ⟨show plainStr (s2l "p") by unfold plainStr; decide, fun c hc => iceChar_plain (hpice c hc)⟩
    · exact ⟨show plainStr (s2l "f") by unfold plainStr; decide, fun c hc =>
        (b64_plain_char (btoaCore_chars _ c hc)).1⟩
    · refine ⟨show plainStr (s2l "c") by unfold plainStr; decide, ?_⟩
      show ∀ v ∈ (((parsedTriples entries).take 5).map encTriple).map JVal.jstr,
        ∃ s, v = JVal.jstr s ∧ plainStr s
      intro v hv
      rcases List.mem_map.mp hv with ⟨s, hsm, rfl⟩
      refine ⟨s, rfl, ?_⟩
      rcases List.mem_map.mp hsm with ⟨u, hum, rfl⟩
      exact (encTriple_plain (parsedTriples_shape (List.mem_of_mem_take hum))).1
  have hlt : jlookup (compressedRecord d entries) (s2l "t") =
      some (.jstr (if d.role = s2l "offer" then s2l "o" else s2l "a")) := rfl
  have hlu : jlookup (compressedRecord d entries) (s2l "u") = some (.jstr d.ufrag) := rfl
  have hlp : jlookup (compressedRecord d entries) (s2l "p") = some (.jstr d.pwd) := rfl
  have hlf : jlookup (compressedRecord d entries) (s2l "f") =
      some (.jstr (btoaCore d.fpBytes)) := rfl
  have hlc : jlookup (compressedRecord d entries) (s2l "c") =
      some (.jarr ((((parsedTriples entries).take 5).map encTriple).map JVal.jstr)) := rfl
  have hfpb : jsAtob (btoaCore d.fpBytes) = .ok d.fpBytes :=
    jsAtob_jsBtoa (by
      rw [jsBtoa, if_pos (by
        rw [List.all_eq_true]
        intro x hx
        simpa using hflt x hx)])
  have htyp : (if jsStrictEqStr (some (.jstr
      (if d.role = s2l "offer" then s2l "o" else s2l "a"))) (s2l "o")
      then s2l "offer" else s2l "answer") = d.role := by
    rcases hrole with hr | hr <;> rw [hr] <;> decide
  have hmi : mapIdxMAux decompressCandidate 0
      ((((parsedTriples entries).take 5).map encTriple).map JVal.jstr) =
      .ok (mapWithIdx expectedCandOfTriple 0 ((parsedTriples entries).take 5)) := by
    rw [List.map_map]
    exact @mapIdxMAux_enc ((parsedTriples entries).take 5)
      (fun t ht => ⟨parsedTriples_shape (List.mem_of_mem_take ht),
        hwf t (List.mem_of_mem_take ht)⟩) 0
  simp only [decompressSignaling, hatok, bind_ok_elim, hmap, hparse, hlt, hlu, hlp,
    hlf, hlc, jsToStr, jsToStrV, hfpb, jsFalsy, htyp, hmi]
  simp only [Bool.false_eq_true, if_false, hmi, bind_ok_elim]
  rfl

/-! ### Path lists through the codec -/

theorem renderPathCand_ne_nil (p : NPath) : (renderPathCand p).isEmpty = false := by
  rw [renderPathCand]
  rfl

theorem wfTriple_path {p : NPath} (hp : wfPath p) : wfTriple (pathTriple p) := by
  obtain ⟨h1, h2, h3, h4, hp5⟩ := hp
  refine ⟨?_, ?_⟩
  · rw [tripleOcts_path]
    intro o ho
    simp only [List.mem_cons, List.not_mem_nil, or_false] at ho
    rcases ho with rfl | rfl | rfl | rfl <;> assumption
  · rw [triplePort_path]
    exact hp5

theorem parsedTriples_renders : ∀ paths : List NPath,
    parsedTriples (paths.map (fun p => some (renderPathCand p))) = paths.map pathTriple := by
  intro paths
  induction paths with
  | nil => rfl
  | cons p ps ih =>
    simp only [List.map_cons, parsedTriples, List.filterMap_cons]
    rw [show (if (renderPathCand p).isEmpty = true then none
        else firstCand (renderPathCand p)) = firstCand (renderPathCand p) by
      rw [renderPathCand_ne_nil p]
      rfl]
    rw [firstCand_renderPathCand p]
    rw [parsedTriples] at ih
    rw [ih]
    rfl

theorem except_ok_bind {α β : Type} (x : α) (f : α → Except String β) :
    (Except.ok x : Except String α).bind f = f x := rfl

/-- The full codec round trip on a rendered well-formed document and an
arbitrary candidate list whose parseable captures are numerically sound. -/
theorem roundtrip_master {d : NDoc} (hd : wfDoc d) {entries : List (Option LC)}
    (hwf : ∀ t ∈ parsedTriples entries, wfTriple t) (ts now : Nat) :
    (compressSignaling ⟨d.role, docSdp ts d⟩ entries).bind
        (fun tok => decompressSignaling tok now) =
      .ok ⟨⟨d.role, minimalSdp now d.ufrag d.pwd (fpHexStr d.fpBytes) d.role⟩,
        mapWithIdx expectedCandOfTriple 0 ((parsedTriples entries).take 5)⟩ := by
  rw [compress_docSdp hd hwf ts, except_ok_bind]
  exact decompress_tokenOf ⟨hd.1, hd.2.1, hd.2.2.1, hd.2.2.2.1, hd.2.2.2.2.1,
    hd.2.2.2.2.2.1, hd.2.2.2.2.2.2⟩ hwf now

theorem mapWithIdx_length {α β : Type} (f : Nat → α → β) :
    ∀ (i : Nat) (l : List α), (mapWithIdx f i l).length = l.length := by
  intro i l
  induction l generalizing i with
  | nil => rfl
  | cons x xs ih => simp [mapWithIdx, ih]

/-- C1: compressing a rendered well-formed document together with at most
five engine-rendered well-formed paths and decompressing the produced token
yields the same role, the same credentials, the same fingerprint, and
exactly the input paths (address, port, kind) in original order. -/
theorem claim_C1 {d : NDoc} (hd : wfDoc d) {paths : List NPath}
    (hps : ∀ p ∈ paths, wfPath p) (hlen : paths.length ≤ 5) (ts now : Nat) :
    (compressSignaling ⟨d.role, docSdp ts d⟩
        (paths.map (fun p => some (renderPathCand p)))).bind
        (fun tok => decompressSignaling tok now) =
      .ok ⟨⟨d.role, minimalSdp now d.ufrag d.pwd (fpHexStr d.fpBytes) d.role⟩,
        mapWithIdx expectedCandOfTriple 0 (paths.map pathTriple)⟩ := by
  have hwf : ∀ t ∈ parsedTriples (paths.map (fun p => some (renderPathCand p))),
      wfTriple t := by
    intro t ht
    rw [parsedTriples_renders] at ht
    rcases List.mem_map.mp ht with ⟨p, hp, rfl⟩
    exact wfTriple_path (hps p hp)
  rw [roundtrip_master hd hwf ts now, parsedTriples_renders,
    List.take_of_length_le (by simpa using hlen)]

/-- Witness of C1 at one concrete document and one concrete path. -/
theorem claim_C1_witness :
    wfDoc ⟨s2l "offer", s2l "aB3", s2l "pW9", [170, 11]⟩ ∧
    (compressSignaling ⟨s2l "offer", docSdp 5 ⟨s2l "offer", s2l "aB3", s2l "pW9", [170, 11]⟩⟩
        (([⟨192, 168, 1, 100, 54321, PathKind.host⟩] : List NPath).map
          (fun p => some (renderPathCand p)))).bind
        (fun tok => decompressSignaling tok 7) =
      .ok ⟨⟨s2l "offer", minimalSdp 7 (s2l "aB3") (s2l "pW9") (fpHexStr [170, 11]) (s2l "offer")⟩,
        mapWithIdx expectedCandOfTriple 0
          (([⟨192, 168, 1, 100, 54321, PathKind.host⟩] : List NPath).map pathTriple)⟩ :=
  ⟨by unfold wfDoc; decide,
   @claim_C1 ⟨s2l "offer", s2l "aB3", s2l "pW9", [170, 11]⟩ (by unfold wfDoc; decide)
     [⟨192, 168, 1, 100, 54321, PathKind.host⟩] (by unfold wfPath; decide) (by decide) 5 7⟩

/-- C3: with all required fields present and eight well-formed paths, the
token decompresses to exactly five paths, namely the first five of the
input list. -/
theorem claim_C3 {d : NDoc} (hd : wfDoc d) {paths : List NPath}
    (hps : ∀ p ∈ paths, wfPath p) (hlen : paths.length = 8) (ts now : Nat) :
    (compressSignaling ⟨d.role, docSdp ts d⟩
        (paths.map (fun p => some (renderPathCand p)))).bind
        (fun tok => decompressSignaling tok now) =
      .ok ⟨⟨d.role, minimalSdp now d.ufrag d.pwd (fpHexStr d.fpBytes) d.role⟩,
        mapWithIdx expectedCandOfTriple 0 ((paths.take 5).map pathTriple)⟩ ∧
    (mapWithIdx expectedCandOfTriple 0 ((paths.take 5).map pathTriple)).length = 5 := by
  constructor
  · have hwf : ∀ t ∈ parsedTriples (paths.map (fun p => some (renderPathCand p))),
        wfTriple t := by
      intro t ht
      rw [parsedTriples_renders] at ht
      rcases List.mem_map.mp ht with ⟨p, hp, rfl⟩
      exact wfTriple_path (hps p hp)
    rw [roundtrip_master hd hwf ts now, parsedTriples_renders, take_map]
  · rw [mapWithIdx_length, List.length_map, List.length_take, hlen]
    decide

/-- Witness of C3 at one concrete document and eight concrete paths. -/
theorem claim_C3_witness :
    ([⟨10, 0, 0, 1, 1001, PathKind.host⟩, ⟨10, 0, 0, 2, 1002, PathKind.host⟩,
      ⟨10, 0, 0, 3, 1003, PathKind.srflx⟩, ⟨10, 0, 0, 4, 1004, PathKind.host⟩,
      ⟨10, 0, 0, 5, 1005, PathKind.relay⟩, ⟨10, 0, 0, 6, 1006, PathKind.host⟩,
      ⟨10, 0, 0, 7, 1007, PathKind.host⟩, ⟨10, 0, 0, 8, 1008, PathKind.host⟩] :
        List NPath).length = 8 ∧
    ((compressSignaling ⟨s2l "offer", docSdp 5 ⟨s2l "offer", s2l "aB3", s2l "pW9", [170, 11]⟩⟩
        (([⟨10, 0, 0, 1, 1001, PathKind.host⟩, ⟨10, 0, 0, 2, 1002, PathKind.host⟩,
          ⟨10, 0, 0, 3, 1003, PathKind.srflx⟩, ⟨10, 0, 0, 4, 1004, PathKind.host⟩,
          ⟨10, 0, 0, 5, 1005, PathKind.relay⟩, ⟨10, 0, 0, 6, 1006, PathKind.host⟩,
          ⟨10, 0, 0, 7, 1007, PathKind.host⟩, ⟨10, 0, 0, 8, 1008, PathKind.host⟩] :
            List NPath).map (fun p => some (renderPathCand p)))).bind
        (fun tok => decompressSignaling tok 7) =
      .ok ⟨⟨s2l "offer", minimalSdp 7 (s2l "aB3") (s2l "pW9") (fpHexStr [170, 11]) (s2l "offer")⟩,
        mapWithIdx expectedCandOfTriple 0
          ((([⟨10, 0, 0, 1, 1001, PathKind.host⟩, ⟨10, 0, 0, 2, 1002, PathKind.host⟩,
            ⟨10, 0, 0, 3, 1003, PathKind.srflx⟩, ⟨10, 0, 0, 4, 1004, PathKind.host⟩,
            ⟨10, 0, 0, 5, 1005, PathKind.relay⟩, ⟨10, 0, 0, 6, 1006, PathKind.host⟩,
            ⟨10, 0, 0, 7, 1007, PathKind.host⟩, ⟨10, 0, 0, 8, 1008, PathKind.host⟩] :
              List NPath).take 5).map pathTriple)⟩ ∧
      (mapWithIdx expectedCandOfTriple 0
          ((([⟨10, 0, 0, 1, 1001, PathKind.host⟩, ⟨10, 0, 0, 2, 1002, PathKind.host⟩,
            ⟨10, 0, 0, 3, 1003, PathKind.srflx⟩, ⟨10, 0, 0, 4, 1004, PathKind.host⟩,
            ⟨10, 0, 0, 5, 1005, PathKind.relay⟩, ⟨10, 0, 0, 6, 1006, PathKind.host⟩,
            ⟨10, 0, 0, 7, 1007, PathKind.host⟩, ⟨10, 0, 0, 8, 1008, PathKind.host⟩] :
              List NPath).take 5).map pathTriple)).length = 5) :=
  ⟨by decide,
   @claim_C3 ⟨s2l "offer", s2l "aB3", s2l "pW9", [170, 11]⟩ (by unfold wfDoc; decide)
     [⟨10, 0, 0, 1, 1001, PathKind.host⟩, ⟨10, 0, 0, 2, 1002, PathKind.host⟩,
      ⟨10, 0, 0, 3, 1003, PathKind.srflx⟩, ⟨10, 0, 0, 4, 1004, PathKind.host⟩,
      ⟨10, 0, 0, 5, 1005, PathKind.relay⟩, ⟨10, 0, 0, 6, 1006, PathKind.host⟩,
      ⟨10, 0, 0, 7, 1007, PathKind.host⟩, ⟨10, 0, 0, 8, 1008, PathKind.host⟩]
     (by unfold wfPath; decide) (by decide) 5 7⟩

/-- C10: for an arbitrary candidate list, null entries, empty strings and
strings the candidate regex rejects are excluded before the five-entry cap,
so the token carries the first up-to-five parseable paths; the exclusions
are invisible in the result. -/
theorem claim_C10 {d : NDoc} (hd : wfDoc d) {entries : List (Option LC)}
    (hwf : ∀ t ∈ parsedTriples entries, wfTriple t) (ts now : Nat) :
    (compressSignaling ⟨d.role, docSdp ts d⟩ entries).bind
        (fun tok => decompressSignaling tok now) =
      .ok ⟨⟨d.role, minimalSdp now d.ufrag d.pwd (fpHexStr d.fpBytes) d.role⟩,
        mapWithIdx expectedCandOfTriple 0 ((parsedTriples entries).take 5)⟩ ∧
    parsedTriples (none :: entries) = parsedTriples entries ∧
    (∀ s : LC, s.isEmpty = true → parsedTriples (some s :: entries) = parsedTriples entries) ∧
    (∀ s : LC, firstCand s = none →
      parsedTriples (some s :: entries) = parsedTriples entries) := by
  refine ⟨roundtrip_master hd hwf ts now, rfl, ?_, ?_⟩
  · intro s hs
    have hnil : s = [] := by simpa [List.isEmpty_eq_true] using hs
    subst hnil
    simp [parsedTriples, List.filterMap_cons]
  · intro s hfc
    by_cases hs : s = []
    · subst hs
      simp [parsedTriples, List.filterMap_cons]
    · simp [parsedTriples, List.filterMap_cons, hs, hfc]

/-- Witness of C10 at a concrete mixed candidate list: a null entry, an
empty string, an unparseable string, and one real candidate. -/
theorem claim_C10_witness :
    (∀ t ∈ parsedTriples [none, some [], some (s2l "no address"),
      some (s2l "candidate:0 1 udp 2113937151 192.168.1.100 54321 typ host")], wfTriple t) ∧
    ((compressSignaling ⟨s2l "offer", docSdp 5 ⟨s2l "offer", s2l "aB3", s2l "pW9", [170, 11]⟩⟩
        [none, some [], some (s2l "no address"),
          some (s2l "candidate:0 1 udp 2113937151 192.168.1.100 54321 typ host")]).bind
        (fun tok => decompressSignaling tok 7) =
      .ok ⟨⟨s2l "offer", minimalSdp 7 (s2l "aB3") (s2l "pW9") (fpHexStr [170, 11]) (s2l "offer")⟩,
        mapWithIdx expectedCandOfTriple 0
          ((parsedTriples [none, some [], some (s2l "no address"),
            some (s2l "candidate:0 1 udp 2113937151 192.168.1.100 54321 typ host")]).take 5)⟩ ∧
      parsedTriples (none :: [none, some [], some (s2l "no address"),
        some (s2l "candidate:0 1 udp 2113937151 192.168.1.100 54321 typ host")]) =
        parsedTriples [none, some [], some (s2l "no address"),
          some (s2l "candidate:0 1 udp 2113937151 192.168.1.100 54321 typ host")] ∧
      (∀ s : LC, s.isEmpty = true →
        parsedTriples (some s :: [none, some [], some (s2l "no address"),
          some (s2l "candidate:0 1 udp 2113937151 192.168.1.100 54321 typ host")]) =
        parsedTriples [none, some [], some (s2l "no address"),
          some (s2l "candidate:0 1 udp 2113937151 192.168.1.100 54321 typ host")]) ∧
      (∀ s : LC, firstCand s = none →
        parsedTriples (some s :: [none, some [], some (s2l "no address"),
          some (s2l "candidate:0 1 udp 2113937151 192.168.1.100 54321 typ host")]) =
        parsedTriples [none, some [], some (s2l "no address"),
          some (s2l "candidate:0 1 udp 2113937151 192.168.1.100 54321 typ host")])) :=
  ⟨by unfold wfTriple; decide,
   @claim_C10 ⟨s2l "offer", s2l "aB3", s2l "pW9", [170, 11]⟩ (by unfold wfDoc; decide)
     [none, some [], some (s2l "no address"),
       some (s2l "candidate:0 1 udp 2113937151 192.168.1.100 54321 typ host")]
     (by unfold wfTriple; decide) 5 7⟩

/-- C4: a rendered document missing any one of the three required scalar
fields makes the compressor fail with the missing-fields error, whatever
the candidate list. -/
theorem claim_C4 {ts : Nat} {uOpt pOpt fOpt : Option LC} {typ : LC}
    {cands : List (Option LC)}
    (hu : ∀ s, uOpt = some s → ∀ c ∈ s, c ≠ '=')
    (hp : ∀ s, pOpt = some s → ∀ c ∈ s, c ≠ '=')
    (hf : ∀ s, fOpt = some s → ∀ c ∈ s, c ≠ '=')
    (hmiss : uOpt = none ∨ pOpt = none ∨ fOpt = none) :
    compressSignaling ⟨typ, minimalSdpOpt ts uOpt pOpt fOpt typ⟩ cands =
      .error "Could not extract required SDP fields" := by
  simp only [compressSignaling]
  rcases hmiss with rfl | rfl | rfl
  · rw [flc_ufrag_none hp hf]
  · rw [flc_pwd_none hu hf]
    cases firstLineCapture iceUfragPat (minimalSdpOpt ts uOpt none fOpt typ) <;> rfl
  · rw [flc_fp_none hu hp]
    cases h1 : firstLineCapture iceUfragPat (minimalSdpOpt ts uOpt pOpt none typ)
    · rfl
    · cases firstLineCapture icePwdPat (minimalSdpOpt ts uOpt pOpt none typ) <;> rfl

/-- Witness of C4 at a concrete document with the ufrag line missing. -/
theorem claim_C4_witness :
    compressSignaling
        ⟨s2l "offer", minimalSdpOpt 0 none (some (s2l "pW")) (some (s2l "AA")) (s2l "offer")⟩
        [] = .error "Could not extract required SDP fields" :=
  claim_C4 (fun s hs => by cases hs)
    (fun s hs => by injection hs with h; subst h; decide)
    (fun s hs => by injection hs with h; subst h; decide)
    (Or.inl rfl)

/-- C2 (amended): the engine liveness signal alone does not enter
Connected while the channel is not open, but the channel-open signal alone
does enter Connected whatever the engine has reported. -/
theorem claim_C2 (s : ConnSt) :
    (∀ i, (i = IceConnState.connected ∨ i = IceConnState.completed) →
      (s.dataChannel ≠ some .opened ∧ s.state ≠ .connected) →
      (stepEvent s (.iceStateChange i)).state ≠ .connected) ∧
    (∀ r, s.dataChannel = some r → (stepEvent s .channelOpen).state = .connected) := by
  constructor
  · rintro i (rfl | rfl) ⟨hdc, hst⟩ <;>
    · simp only [stepEvent, setConnState]
      rw [if_pos (by simp), if_neg (by simpa using hdc)]
      exact hst
  · intro r hr
    simp only [stepEvent, hr, setConnState]

/-- Witness of C2 right after createOffer: the channel exists but is still
connecting, and neither liveness signal alone connects. -/
theorem claim_C2_witness :
    (stepEvent offerSetupState (.iceStateChange .connected)).state ≠ .connected ∧
    (stepEvent offerSetupState (.iceStateChange .completed)).state ≠ .connected ∧
    (stepEvent offerSetupState .channelOpen).state = .connected :=
  ⟨(claim_C2 offerSetupState).1 .connected (Or.inl rfl) ⟨by decide, by decide⟩,
   (claim_C2 offerSetupState).1 .completed (Or.inr rfl) ⟨by decide, by decide⟩,
   (claim_C2 offerSetupState).2 .connecting rfl⟩

/-- Counterexample to C2 as stated: from the reachable post-createOffer
state, the single channel-open event enters Connected although the engine
never reported its path connected or completed. -/
theorem claim_C2_counterexample :
    (runEvents offerSetupState [.channelOpen]).state = .connected ∧
    offerSetupState.ice ≠ .connected ∧ offerSetupState.ice ≠ .completed ∧
    (runEvents offerSetupState [.channelOpen]).ice ≠ .connected ∧
    (runEvents offerSetupState [.channelOpen]).ice ≠ .completed := by
  decide

/-- C6: with no engine handle, acceptAnswer throws the no-peer-connection
error and leaves the closure state unchanged, in particular still Idle. -/
theorem claim_C6 {s : ConnSt} (h : s.pc = false) (hidle : s.state = .idle)
    (tok : LC) (now : Nat) :
    acceptAnswer s tok now = (some "No peer connection - call createOffer first", s) ∧
    (acceptAnswer s tok now).2.state = .idle := by
  have h1 : acceptAnswer s tok now =
      (some "No peer connection - call createOffer first", s) := by
    simp [acceptAnswer, h]
  exact ⟨h1, by rw [h1]; exact hidle⟩

/-- Witness of C6 on the freshly created manager. -/
theorem claim_C6_witness :
    acceptAnswer initConn [] 0 =
      (some "No peer connection - call createOffer first", initConn) ∧
    (acceptAnswer initConn [] 0).2.state = .idle :=
  claim_C6 rfl rfl [] 0

/-- C7: close never throws, clears the timer, the channel, the engine
handle and the accumulated paths, ends Disconnected from every prior
state, and is idempotent. -/
theorem claim_C7 (s : ConnSt) :
    (close s).state = .disconnected ∧ (close s).timerActive = false ∧
    (close s).dataChannel = none ∧ (close s).pc = false ∧
    (close s).localCandidates = [] ∧ close (close s) = close s :=
  ⟨rfl, rfl, rfl, rfl, rfl, rfl⟩

/-- C8 (amended): the gathering wait always resolves once the timeout
fires, and the three-candidate threshold resolves it when a gathering
state change (or the initial check) runs checkCandidates; candidate
arrivals alone never run the check. -/
theorem claim_C8 :
    (∀ (c0 : Nat) (g0 : GatherState) (evs : List OWEvent),
      (owRun (owInit c0 g0) (evs ++ [.timeout])).resolved = true) ∧
    (∀ s : OfferWait, s.gather = .complete ∨ 3 ≤ s.cands →
      (owCheck s).resolved = true) ∧
    (∀ (s : OfferWait) (g : GatherState), 3 ≤ s.cands →
      (owStep s (.gatherChange g)).resolved = true) := by
  refine ⟨?_, ?_, ?_⟩
  · have inv : ∀ (evs : List OWEvent) (s : OfferWait),
        (s.timer = false → s.resolved = true) →
        ((owRun s evs).timer = false → (owRun s evs).resolved = true) := by
      intro evs
      induction evs with
      | nil => intro s h; exact h
      | cons e es ih =>
        intro s h
        refine ih (owStep s e) ?_
        cases e with
        | cand => exact h
        | gatherChange g =>
          simp only [owStep, owCheck]
          split
          · intro _; rfl
          · exact h
        | timeout =>
          simp only [owStep]
          split
          · intro _; rfl
          · exact h
    intro c0 g0 evs
    have hbase : (owInit c0 g0).timer = false → (owInit c0 g0).resolved = true := by
      unfold owInit owCheck
      split
      · intro _; rfl
      · intro h
        simp at h
    have hstep := inv evs _ hbase
    rw [owRun, List.foldl_append]
    show (owStep (owRun (owInit c0 g0) evs) .timeout).resolved = true
    simp only [owStep]
    split
    · rfl
    · rename_i ht
      exact hstep (by simpa using ht)
  · intro s h
    simp only [owCheck]
    rw [if_pos h]
  · intro s g h
    simp only [owStep, owCheck]
    rw [if_pos (Or.inr h)]

/-- Witness of C8: the timeout resolves an idle wait, and the threshold
resolves a wait holding three candidates when the check runs. -/
theorem claim_C8_witness :
    (owRun (owInit 0 .fresh) ([] ++ [.timeout])).resolved = true ∧
    (owCheck ⟨3, .fresh, false, true⟩).resolved = true ∧
    (owStep ⟨3, .fresh, false, true⟩ (.gatherChange .gathering)).resolved = true :=
  ⟨claim_C8.1 0 .fresh [], claim_C8.2.1 ⟨3, .fresh, false, true⟩ (Or.inr (by decide)),
   claim_C8.2.2 ⟨3, .fresh, false, true⟩ .gathering (by decide)⟩

/-- Counterexample to C8 as stated: three candidate arrivals alone leave
the wait unresolved, because checkCandidates only runs on gathering state
changes, at the initial call, and at the timeout. -/
theorem claim_C8_counterexample :
    (owRun (owInit 0 .gathering) [.cand, .cand, .cand]).cands = 3 ∧
    (owRun (owInit 0 .gathering) [.cand, .cand, .cand]).resolved = false := by
  decide

/-- C9: send throws unless the channel is open; on an open channel a plain
string is handed over verbatim, and an object is serialized to JSON text
whose parse recovers the object (stated for the flat records this
development reparses). -/
theorem claim_C9 (s : ConnSt) (msg : JVal) :
    (s.dataChannel ≠ some .opened → send s msg = .error "Data channel not open") ∧
    (s.dataChannel = some .opened →
      (∀ str, msg = .jstr str → send s msg = .ok (.jstr str)) ∧
      (∀ kvs, msg = .jobj kvs → kvs ≠ [] →
        (∀ kv ∈ kvs, plainStr kv.1 ∧ isFlatVal kv.2) →
        send s msg = .ok (.jstr (printJson msg)) ∧
        jsonParse (printJson msg) = some msg)) := by
  constructor
  · intro h
    simp [send, h]
  · intro hop
    constructor
    · intro str hmsg
      subst hmsg
      simp [send, hop, isObjType]
    · intro kvs hmsg hne hkv
      subst hmsg
      exact ⟨by simp [send, hop, isObjType], jsonParse_printJson_obj hne hkv⟩

/-- Witness of C9: a closed channel throws, an open channel passes a string
verbatim and serializes an object reversibly. -/
theorem claim_C9_witness :
    send ⟨.idle, false, .fresh, none, [], false⟩ (.jstr (s2l "hi")) =
      .error "Data channel not open" ∧
    send ⟨.idle, false, .fresh, some .opened, [], false⟩ (.jstr (s2l "hi")) =
      .ok (.jstr (s2l "hi")) ∧
    send ⟨.idle, false, .fresh, some .opened, [], false⟩ (.jobj [(s2l "a", .jstr (s2l "b"))]) =
      .ok (.jstr (printJson (.jobj [(s2l "a", .jstr (s2l "b"))]))) ∧
    jsonParse (printJson (.jobj [(s2l "a", .jstr (s2l "b"))])) =
      some (.jobj [(s2l "a", .jstr (s2l "b"))]) := by
  refine ⟨(claim_C9 ⟨.idle, false, .fresh, none, [], false⟩ (.jstr (s2l "hi"))).1 (by decide),
    ((claim_C9 ⟨.idle, false, .fresh, some .opened, [], false⟩ (.jstr (s2l "hi"))).2
      rfl).1 (s2l "hi") rfl, ?_, ?_⟩
  · exact (((claim_C9 ⟨.idle, false, .fresh, some .opened, [], false⟩
      (.jobj [(s2l "a", .jstr (s2l "b"))])).2 rfl).2 [(s2l "a", .jstr (s2l "b"))] rfl
      (by simp) (by
        intro kv hkv
        simp only [List.mem_singleton] at hkv
        subst hkv
        exact ⟨by unfold plainStr; decide,
          show plainStr (s2l "b") by unfold plainStr; decide⟩)).1
  · exact (((claim_C9 ⟨.idle, false, .fresh, some .opened, [], false⟩
      (.jobj [(s2l "a", .jstr (s2l "b"))])).2 rfl).2 [(s2l "a", .jstr (s2l "b"))] rfl
      (by simp) (by
        intro kv hkv
        simp only [List.mem_singleton] at hkv
        subst hkv
        exact ⟨by unfold plainStr; decide,
          show plainStr (s2l "b") by unfold plainStr; decide⟩)).2

end P2P
